import Mathlib

set_option autoImplicit false

/-!
Verification of the GoNZB download engine against its specification.

The development shallowly embeds the relevant parts of the Go source:

* `internal/decoding/yenc.go` — the streaming yEnc decoder
  (`DiscardHeader`, `Read`, `parseFooter`, `Verify`);
* `internal/engine/worker.go` — the retry/collection logic of
  `Downloader.runWorkerPool` and the write-offset computation of
  `Downloader.processSegment`;
* `internal/nntp/manager.go` — `Manager.Fetch` with its per-provider
  semaphores, failover and `releaseReader`;
* `internal/engine/manager.go` and the store's `ResetStuckQueueItems`;
* `internal/processor/fs.go` — `sanitizeFileName`.

Go strings and byte slices are modelled as `List Nat` (each element a byte
value, or a rune codepoint in the sanitizer); machine integers are `Nat` or
`Int` with explicit `% 256` where Go's `byte` arithmetic wraps.
-/

set_option maxRecDepth 8000

namespace GoNZB

/-- Character codes of a Lean string literal; used to transcribe the ASCII
string constants appearing in the Go source. -/
def strB (s : String) : List Nat := (s.toList).map Char.toNat

/-- Model of Go `strings.HasPrefix s pat`. -/
def startsWith : List Nat → List Nat → Bool
  | _, [] => true
  | [], _ :: _ => false
  | c :: s, d :: pat => c == d && startsWith s pat

/-- Model of Go `strings.Contains s pat` (does `pat` occur inside `s`?). -/
def containsSub : List Nat → List Nat → Bool
  | s, pat =>
    if startsWith s pat then true
    else
      match s with
      | [] => false
      | _ :: rest => containsSub rest pat

/-- Whitespace as recognised by Go `unicode.IsSpace` on the ASCII/Latin-1
range (the only characters the engine ever feeds to `strings.Fields`). -/
def isSpaceGo (c : Nat) : Bool :=
  c == 9 || c == 10 || c == 11 || c == 12 || c == 13 || c == 32 || c == 133 || c == 160

/-- Accumulator loop behind `fields` (Go `strings.Fields`): split a string
into its maximal runs of non-whitespace characters. -/
def fieldsAux : List Nat → List Nat → List (List Nat)
  | [], cur => if cur.isEmpty then [] else [cur.reverse]
  | c :: rest, cur =>
    if isSpaceGo c then
      if cur.isEmpty then fieldsAux rest []
      else cur.reverse :: fieldsAux rest []
    else fieldsAux rest (c :: cur)

/-- Model of Go `strings.Fields`. -/
def fields (s : List Nat) : List (List Nat) := fieldsAux s []

/-- Value of an ASCII decimal digit character. -/
def decDigitVal (c : Nat) : Option Nat :=
  if 48 ≤ c ∧ c ≤ 57 then some (c - 48) else none

/-- Digit-accumulation loop of `strconv.ParseInt`/`ParseUint` in base 10. -/
def parseDecCore : List Nat → Nat → Option Nat
  | [], acc => some acc
  | c :: rest, acc =>
    match decDigitVal c with
    | none => none
    | some d => parseDecCore rest (acc * 10 + d)

/-- Model of Go `strconv.ParseInt(s, 10, 64)`: optional sign, at least one
digit, all digits, and an int64 range check (overflow is an error, and the
callers in the source discard the clamped value on error). -/
def parseInt64 (s : List Nat) : Option Int :=
  match s with
  | [] => none
  | c :: rest =>
    if c = 43 then
      match rest with
      | [] => none
      | _ :: _ =>
        (parseDecCore rest 0).bind fun n =>
          if n ≤ 2 ^ 63 - 1 then some (Int.ofNat n) else none
    else if c = 45 then
      match rest with
      | [] => none
      | _ :: _ =>
        (parseDecCore rest 0).bind fun n =>
          if n ≤ 2 ^ 63 then some (-(Int.ofNat n)) else none
    else
      (parseDecCore s 0).bind fun n =>
        if n ≤ 2 ^ 63 - 1 then some (Int.ofNat n) else none

/-- Value of an ASCII hexadecimal digit character (either case). -/
def hexDigitVal (c : Nat) : Option Nat :=
  if 48 ≤ c ∧ c ≤ 57 then some (c - 48)
  else if 97 ≤ c ∧ c ≤ 102 then some (c - 87)
  else if 65 ≤ c ∧ c ≤ 70 then some (c - 55)
  else none

/-- Digit-accumulation loop of `strconv.ParseUint` in base 16. -/
def parseHexCore : List Nat → Nat → Option Nat
  | [], acc => some acc
  | c :: rest, acc =>
    match hexDigitVal c with
    | none => none
    | some d => parseHexCore rest (acc * 16 + d)

/-- Model of Go `strconv.ParseUint(s, 16, 32)`: nonempty, hex digits only,
value below `2^32`. -/
def parseUint32Hex (s : List Nat) : Option Nat :=
  match s with
  | [] => none
  | _ :: _ =>
    (parseHexCore s 0).bind fun n => if n < 2 ^ 32 then some n else none

/-- Fuel-bounded digit expansion in base 10 (structural, so that concrete
instances evaluate inside the kernel); the fuel is generous whenever it is
at least the number being printed. -/
def decDigitsFuel : Nat → Nat → List Nat
  | 0, n => [n % 10 + 48]
  | fuel + 1, n =>
    if n < 10 then [n + 48]
    else decDigitsFuel fuel (n / 10) ++ [n % 10 + 48]

/-- Decimal digit characters of `n`, most significant first. -/
def decRepr (n : Nat) : List Nat := decDigitsFuel n n

/-- Uppercase hexadecimal digit character for a value below 16. -/
def hexDigitCh (d : Nat) : Nat := if d < 10 then d + 48 else d + 55

/-- Fuel-bounded digit expansion in base 16. -/
def hexDigitsFuel : Nat → Nat → List Nat
  | 0, n => [hexDigitCh (n % 16)]
  | fuel + 1, n =>
    if n < 16 then [hexDigitCh n]
    else hexDigitsFuel fuel (n / 16) ++ [hexDigitCh (n % 16)]

/-- Hexadecimal digit characters of `n`, most significant first. -/
def hexRepr (n : Nat) : List Nat := hexDigitsFuel n n

/-- One shift-and-conditionally-xor round of the reflected CRC32-IEEE
update (polynomial `0xEDB88320`). -/
def crcRound (r : Nat) : Nat :=
  if r % 2 = 1 then (r / 2) ^^^ 0xEDB88320 else r / 2

/-- Iterated CRC rounds. -/
def crcRounds : Nat → Nat → Nat
  | 0, r => r
  | k + 1, r => crcRounds k (crcRound r)

/-- Absorb one byte into the CRC32 register (the tableless form of the
table-driven update used by Go's `hash/crc32` with the IEEE polynomial). -/
def crcByte (crc b : Nat) : Nat := crcRounds 8 (crc ^^^ b)

/-- CRC32-IEEE of a byte list, as computed by `crc32.NewIEEE()` fed with the
same bytes in the same order. -/
def crc32List (bs : List Nat) : Nat :=
  (bs.foldl crcByte 0xFFFFFFFF) ^^^ 0xFFFFFFFF

/-- Model of the Go error values the engine distinguishes.  `wrapped`
corresponds to `fmt.Errorf("...: %w", inner)`; sentinel constructors stand
for the package-level `errors.New` values. -/
inductive GoErr where
  | eof
  | headerNotFoundSentinel
  | providerBusySentinel
  | articleNotFoundSentinel
  | transport (msg : String)
  | checksumMismatch
  | wrapped (msg : String) (inner : GoErr)
  | plain (msg : String)
  deriving DecidableEq, Repr

/-- Model of Go `errors.Is`: compare, then unwrap through `wrapped`. -/
def errorsIs : GoErr → GoErr → Bool
  | e@(.wrapped _ inner), target => e == target || errorsIs inner target
  | e, target => e == target

/-!
## The yEnc streaming decoder (`internal/decoding/yenc.go`)

The decoder state carries the unread part of the underlying stream
(`input`, standing for the `bufio.Reader`), the escape flag, the
end-of-part flag, the bytes fed to the running CRC32 so far (`hashAcc`,
standing for the `hash.Hash32` register — Go's `crc32` hash of a stream
equals `crc32List` of the concatenation of all written chunks), the parsed
expected CRC, and the two header-derived numbers.
-/

structure YencDecoder where
  input : List Nat
  escaped : Bool
  reachedEnd : Bool
  hashAcc : List Nat
  expectedCRC : Nat
  partOffset : Int
  fileSize : Int
  deriving DecidableEq, Repr

/-- Embeds `NewYencDecoder`: fresh state over a stream. -/
def NewYencDecoder (r : List Nat) : YencDecoder :=
  { input := r, escaped := false, reachedEnd := false, hashAcc := [],
    expectedCRC := 0, partOffset := 0, fileSize := 0 }

/-- Embeds `bufio.Reader.ReadString('\n')`: the line up to and including
the delimiter, the remaining input, and whether the delimiter was found
(`false` models the `io.EOF` error, with all remaining bytes consumed). -/
def readLine : List Nat → List Nat × List Nat × Bool
  | [] => ([], [], false)
  | c :: rest =>
    if c = 10 then ([10], rest, true)
    else
      let r := readLine rest
      (c :: r.1, r.2.1, r.2.2)

/-- One step of the `parseYbegin` field loop: a `size=` field that parses
as a base-10 int64 updates `FileSize`. -/
def ybeginField (d : YencDecoder) (part : List Nat) : YencDecoder :=
  if startsWith part (strB ("size=")) then
    match parseInt64 (part.drop 5) with
    | some v => { d with fileSize := v }
    | none => d
  else d

/-- Embeds the `parseYbegin` field loop. -/
def parseYbegin (d : YencDecoder) (line : List Nat) : YencDecoder :=
  (fields line).foldl ybeginField d

/-- One step of the `begin=` field loop of `handlePotentialPartHeader`: a
parsed `begin=` field sets `PartOffset := begin - 1` (yEnc offsets are
1-based). -/
def ypartField (d : YencDecoder) (part : List Nat) : YencDecoder :=
  if startsWith part (strB ("begin=")) then
    match parseInt64 (part.drop 6) with
    | some v => { d with partOffset := v - 1 }
    | none => d
  else d

/-- Embeds the `begin=` field loop of `handlePotentialPartHeader`. -/
def parsePartLine (d : YencDecoder) (line : List Nat) : YencDecoder :=
  (fields line).foldl ypartField d

/-- Embeds `handlePotentialPartHeader`: peek six bytes (a short peek errors
and the method returns success unchanged); if the window contains `=ypart`,
consume that line (returning the raw read error on a missing newline) and
parse its `begin=` field. -/
def handlePotentialPartHeader (d : YencDecoder) : Except GoErr YencDecoder :=
  if d.input.length < 6 then .ok d
  else if containsSub (d.input.take 6) (strB ("=ypart")) then
    let r := readLine d.input
    if r.2.2 then .ok (parsePartLine { d with input := r.2.1 } r.1)
    else .error .eof
  else .ok d

/-- Scanning loop of `DiscardHeader`: read `'\n'`-terminated lines until
one starts with `=ybegin`; reaching end of input first is the error case.
(The Go loop around `ReadString` is rendered as a single structural scan;
a partial final line is never prefix-tested because `ReadString` reports
its error first.) -/
def findHeaderAux : List Nat → List Nat → Option (List Nat × List Nat)
  | [], _ => none
  | c :: rest, acc =>
    if c = 10 then
      let line := (10 :: acc).reverse
      if startsWith line (strB ("=ybegin")) then some (line, rest)
      else findHeaderAux rest []
    else findHeaderAux rest (c :: acc)

/-- Embeds `YencDecoder.DiscardHeader`. -/
def DiscardHeader (d : YencDecoder) : Except GoErr YencDecoder :=
  match findHeaderAux d.input [] with
  | none => .error (.wrapped ("searching for yenc header") .eof)
  | some (line, rest) =>
    handlePotentialPartHeader (parseYbegin { d with input := rest } line)

/-- Embeds the field loop of `parseFooter`: a parsing `pcrc32=` field sets
the expected CRC and stops; otherwise a parsing `crc32=` field sets it and
the loop continues. -/
def parseFooterFields (d : YencDecoder) : List (List Nat) → YencDecoder
  | [] => d
  | part :: rest =>
    let pc : Option Nat :=
      if startsWith part (strB ("pcrc32=")) then parseUint32Hex (part.drop 7)
      else none
    match pc with
    | some crc => { d with expectedCRC := crc }
    | none =>
      let d2 :=
        if startsWith part (strB ("crc32=")) then
          match parseUint32Hex (part.drop 6) with
          | some crc => { d with expectedCRC := crc }
          | none => d
        else d
      parseFooterFields d2 rest

/-- Embeds `parseFooter`: consume the footer line (read errors ignored)
and scan its fields. -/
def parseFooter (d : YencDecoder) : YencDecoder :=
  let r := readLine d.input
  parseFooterFields { d with input := r.2.1 } (fields r.1)

/-- Why one `Read` call stopped consuming input. -/
inductive ReadStop where
  | bufFull
  | eofInput
  | endMarker
  deriving DecidableEq, Repr

/-- Byte loop of `YencDecoder.Read` over a buffer with `k` free slots:
returns the decoded bytes, the unread input, the final escape flag and the
stop reason.  `=` outside escape peeks four bytes for `yend`; unescaped
CR/LF are skipped; otherwise the byte is decoded by `-42` (or `-64-42`
when escaped), modulo 256. -/
def readCore : Nat → List Nat → Bool → List Nat × List Nat × Bool × ReadStop
  | 0, input, escaped => ([], input, escaped, .bufFull)
  | _ + 1, [], escaped => ([], [], escaped, .eofInput)
  | k + 1, b :: rest, escaped =>
    if b = 61 ∧ escaped = false then
      if rest.take 4 = strB ("yend") then ([], rest, escaped, .endMarker)
      else readCore (k + 1) rest true
    else if (b = 13 ∨ b = 10) ∧ escaped = false then
      readCore (k + 1) rest escaped
    else
      let decoded := if escaped then (b + 150) % 256 else (b + 214) % 256
      let r := readCore k rest false
      (decoded :: r.1, r.2)

/-- Embeds `YencDecoder.Read` with a buffer of capacity `cap`: the decoded
bytes, the successor state (with the decoded bytes appended to the hash)
and the returned error (`some .eof` models `io.EOF`). -/
def Read (cap : Nat) (d : YencDecoder) : List Nat × YencDecoder × Option GoErr :=
  if d.reachedEnd then ([], d, some .eof)
  else
    let r := readCore cap d.input d.escaped
    match r.2.2.2 with
    | .bufFull =>
      (r.1, { d with input := r.2.1, escaped := r.2.2.1,
                     hashAcc := d.hashAcc ++ r.1 }, none)
    | .eofInput =>
      (r.1, { d with input := r.2.1, escaped := r.2.2.1,
                     hashAcc := d.hashAcc ++ r.1 }, some .eof)
    | .endMarker =>
      let d2 := parseFooter { d with input := r.2.1, escaped := r.2.2.1,
                                     reachedEnd := true }
      (r.1, { d2 with hashAcc := d2.hashAcc ++ r.1 }, some .eof)

/-- Call `Read` with capacity `cap` until it returns an error, concatenating
the outputs (the shape in which the worker's `io.ReadFull` consumes the
decoder).  `fuel` bounds the number of calls; any fuel above the remaining
input length is enough. -/
def readToEnd (cap fuel : Nat) (d : YencDecoder) : List Nat × YencDecoder × Option GoErr :=
  match fuel with
  | 0 => ([], d, none)
  | fuel + 1 =>
    let r := Read cap d
    match r.2.2 with
    | some e => (r.1, r.2.1, some e)
    | none =>
      let r2 := readToEnd cap fuel r.2.1
      (r.1 ++ r2.1, r2.2.1, r2.2.2)

/-- Embeds `YencDecoder.Verify`: compare the accumulated CRC32 with the
expected one; `some .checksumMismatch` models the returned error. -/
def Verify (d : YencDecoder) : Option GoErr :=
  if crc32List d.hashAcc ≠ d.expectedCRC then some .checksumMismatch else none

/-- Modelled from the spec: the yEnc encoding of one plain byte (§4.4 of
the specification; the repository contains no encoder).  The byte is
offset by `+42 mod 256`; if the encoded value is NUL, LF, CR or `=` it is
written as `=` followed by the value offset by a further `+64 mod 256`. -/
def encodeByte (b : Nat) : List Nat :=
  let e := (b + 42) % 256
  if e = 0 ∨ e = 10 ∨ e = 13 ∨ e = 61 then [61, (e + 64) % 256] else [e]

/-- Modelled from the spec: yEnc-encode a byte sequence. -/
def encodeBytes (bs : List Nat) : List Nat := (bs.map encodeByte).flatten

/-- Space-separated concatenation of words (for building header lines). -/
def wordsJoin : List (List Nat) → List Nat
  | [] => []
  | [w] => w
  | w :: ws => w ++ [32] ++ wordsJoin ws

/-- A well-formed `=ybegin` header line advertising `size=n`. -/
def ybeginLine (n : Nat) : List Nat :=
  wordsJoin [strB ("=ybegin"), strB ("part=1"), strB ("size=") ++ decRepr n,
    strB ("name=data")] ++ [10]

/-- A well-formed `=ypart` header line with `begin=b` and `end=n`. -/
def ypartLine (b n : Nat) : List Nat :=
  wordsJoin [strB ("=ypart"), strB ("begin=") ++ decRepr b,
    strB ("end=") ++ decRepr n] ++ [10]

/-- The `=yend` trailer line after its leading `=`, advertising `size=n`
and `pcrc32=` with CRC value `c`. -/
def yendTail (c n : Nat) : List Nat :=
  wordsJoin [strB ("yend"), strB ("size=") ++ decRepr n,
    strB ("pcrc32=") ++ hexRepr c] ++ [10]

/-- The `'\n'`-terminated lines of a stream, a trailing unterminated
fragment dropped (what `ReadString('\n')` can deliver without error). -/
def completeLinesAux : List Nat → List Nat → List (List Nat)
  | [], _ => []
  | c :: rest, acc =>
    if c = 10 then (acc.reverse ++ [10]) :: completeLinesAux rest []
    else completeLinesAux rest (c :: acc)

/-- The complete lines of a stream, from its start. -/
def completeLines (s : List Nat) : List (List Nat) := completeLinesAux s []

/-- Printable non-space ASCII, the alphabet of the frame words. -/
abbrev chOk (c : Nat) : Prop := 33 ≤ c ∧ c ≤ 125

/-- A nonempty word over the frame alphabet. -/
abbrev wordOk (w : List Nat) : Prop := w ≠ [] ∧ ∀ ch ∈ w, chOk ch

/-- A complete framed yEnc part for the plain bytes `bs`: header, part
line with `begin=1`, encoded body, CRLF, and the `=yend` trailer carrying
the CRC32 of `bs`. -/
def yencFrame (bs : List Nat) : List Nat :=
  ybeginLine bs.length ++ ypartLine 1 bs.length ++ encodeBytes bs ++
    [13, 10, 61] ++ yendTail (crc32List bs) bs.length

/-!
## The result collector of `Downloader.runWorkerPool`
(`internal/engine/worker.go`)
-/

/-- What the collector does with one segment result. -/
inductive CollectorDecision where
  | completed
  | requeue (newRetryCount delayMs : Nat)
  | permanentFailure
  deriving DecidableEq, Repr

/-- Embeds the result-handling branch of `Downloader.runWorkerPool`: only
`ProviderBusy` and `ArticleNotFound` results with retries left are put back
into the pipeline (busy after 100 ms without touching the counter, missing
after incrementing the counter and waiting `2^count` seconds); every other
error is at once a permanent failure. -/
def collectDecision (err : Option GoErr) (retryCount : Nat) : CollectorDecision :=
  match err with
  | none => .completed
  | some e =>
    if (errorsIs e .providerBusySentinel || errorsIs e .articleNotFoundSentinel) = true ∧
        retryCount < 3 then
      if errorsIs e .providerBusySentinel then .requeue retryCount 100
      else .requeue (retryCount + 1) (2 ^ (retryCount + 1) * 1000)
    else .permanentFailure

/-!
## The startup reset of the persistent queue
(`internal/engine/manager.go`, `internal/store`)
-/

/-- The five job statuses of `domain.JobStatus`. -/
inductive JobStatus where
  | pending
  | downloading
  | processing
  | completed
  | failed
  deriving DecidableEq, Repr

/-- One row of the `queue_items` table (the columns the reset touches). -/
structure QueueRow where
  rowId : String
  status : JobStatus
  errorNote : Option String
  deriving DecidableEq, Repr

/-- Embeds `PersistentStore.ResetStuckQueueItems`: the SQL
`UPDATE queue_items SET status = ?, error = 'Unexpected shutdown' WHERE
status IN (...)` over a table, with the empty-`oldStatuses` early return. -/
def ResetStuckQueueItems (newStatus : JobStatus) (oldStatuses : List JobStatus)
    (rows : List QueueRow) : List QueueRow :=
  if oldStatuses.isEmpty then rows
  else
    rows.map fun r =>
      if oldStatuses.contains r.status then
        { r with status := newStatus, errorNote := some ("Unexpected shutdown") }
      else r

/-- Embeds the reset call in `QueueManager.initFromDatabase`: the first
argument of `ResetStuckQueueItems` is the *new* status, so this call
rewrites rows whose status is in `[downloading]` to `pending`. -/
def initFromDatabaseReset (rows : List QueueRow) : List QueueRow :=
  ResetStuckQueueItems .pending [.downloading] rows

/-!
## The write-offset computation of `Downloader.processSegment`
(`internal/engine/worker.go`)
-/

/-- Embeds the `writeOffset` computation: start from the decoder's
`PartOffset` and fall back to the dispatcher's cumulative offset exactly
when `PartOffset` is zero and the job offset is not. -/
def computeWriteOffset (partOffset jobOffset : Int) : Int :=
  if partOffset = 0 ∧ jobOffset ≠ 0 then jobOffset else partOffset

/-!
## `Manager.Fetch` (`internal/nntp/manager.go`)

The loop over the priority-sorted providers is modelled sequentially: each
provider carries its current in-flight count (the occupancy of its
semaphore channel of capacity `maxConn`) and the outcome its `Fetch` would
produce if attempted.  `missing` models the keys of `segment.MissingFrom`
(a Go map, hence without duplicates as produced by the code).  Ghost
fields (`busySkips`, `savedErr`, `attempts`) record what the loop did
without influencing it.
-/

/-- What `provider.Fetch` would return when attempted. -/
inductive FetchOutcome where
  | success
  | notFound
  | failure (e : GoErr)
  deriving DecidableEq, Repr

/-- A managed provider: identity, semaphore capacity and occupancy, and
the behaviour of its `Fetch`. -/
structure MProvider where
  pid : String
  maxConn : Nat
  inFlight : Nat
  outcome : FetchOutcome
  deriving DecidableEq, Repr

/-- The body reader returned on success, wrapping `releaseReader`: the
index of the provider whose semaphore slot it holds and whether its
`onClose` hook is still armed. -/
structure ReleaseReader where
  idx : Nat
  releasePending : Bool
  deriving DecidableEq, Repr

/-- Result of `Manager.Fetch`. -/
inductive FetchRes where
  | reader (r : ReleaseReader)
  | err (e : GoErr)
  deriving DecidableEq, Repr

/-- Discriminator: did the fetch hand back a body reader? -/
def FetchRes.isReader : FetchRes → Bool
  | .reader _ => true
  | .err _ => false

/-- Everything observable about one `Manager.Fetch` call. -/
structure FetchTrace where
  res : FetchRes
  provs : List MProvider
  missing : List String
  busySkips : Nat
  savedErr : Option GoErr
  attempts : Nat
  deriving DecidableEq, Repr

/-- Key insertion into the `MissingFrom` map. -/
def insertMissing (m : List String) (p : String) : List String :=
  if m.contains p then m else m ++ [p]

/-- The provider loop of `Manager.Fetch` followed by its post-loop
decision: skip providers already marked missing; skip (and remember) a
provider whose semaphore has no free slot; otherwise acquire a slot and
attempt the fetch — success keeps the slot and returns a reader, a 430
releases the slot and marks the provider missing, any other error releases
the slot and is saved.  After the loop: `ArticleNotFound` when the missing
map is as large as the provider list, else the saved error, else
`ProviderBusy`. -/
def fetchLoop (ps : List MProvider) (missing : List String) (savedErr : Option GoErr)
    (busySkips attempts : Nat) (done : List MProvider) (total : Nat) : FetchTrace :=
  match ps with
  | [] =>
    { res :=
        if missing.length = total then .err .articleNotFoundSentinel
        else
          match savedErr with
          | some e => .err e
          | none => .err .providerBusySentinel,
      provs := done, missing := missing, busySkips := busySkips,
      savedErr := savedErr, attempts := attempts }
  | p :: rest =>
    if missing.contains p.pid then
      fetchLoop rest missing savedErr busySkips attempts (done ++ [p]) total
    else if p.inFlight < p.maxConn then
      match p.outcome with
      | .success =>
        { res := .reader { idx := done.length, releasePending := true },
          provs := done ++ ({ p with inFlight := p.inFlight + 1 } :: rest),
          missing := missing, busySkips := busySkips, savedErr := savedErr,
          attempts := attempts + 1 }
      | .notFound =>
        fetchLoop rest (insertMissing missing p.pid) savedErr busySkips
          (attempts + 1) (done ++ [p]) total
      | .failure e =>
        fetchLoop rest missing (some e) busySkips (attempts + 1) (done ++ [p]) total
    else
      fetchLoop rest missing savedErr (busySkips + 1) attempts (done ++ [p]) total

/-- Embeds `Manager.Fetch` on a segment whose `MissingFrom` keys are
`missing`. -/
def ManagerFetch (providers : List MProvider) (missing : List String) : FetchTrace :=
  fetchLoop providers missing none 0 0 [] providers.length

/-- Embeds `releaseReader.Close`: the first close disarms the hook and
hands the slot back to the provider it was taken from; later closes do
nothing to the semaphore. -/
def closeReader (r : ReleaseReader) (provs : List MProvider) :
    ReleaseReader × List MProvider :=
  if r.releasePending then
    match provs[r.idx]? with
    | some p =>
      ({ r with releasePending := false },
        provs.set r.idx { p with inFlight := p.inFlight - 1 })
    | none => ({ r with releasePending := false }, provs)
  else (r, provs)

/-- Loop invariant of `fetchLoop`, relating one call (with already-visited
providers `done` and remaining providers `ps`) to its outcome: an error
leaves every semaphore as it found it; a reader pinpoints the single
successful provider, whose slot count went up by one; and when no reader
is produced the result is determined by the final missing-set size and the
saved error exactly as in the post-loop code. -/
def FetchLoopInv (t : FetchTrace) (done ps : List MProvider) (total : Nat) : Prop :=
  (∀ e, t.res = .err e → t.provs = done ++ ps) ∧
  (∀ r, t.res = .reader r → r.releasePending = true ∧
    ∃ p ps1 ps2, ps = ps1 ++ p :: ps2 ∧ p.inFlight < p.maxConn ∧
      p.outcome = .success ∧ r.idx = done.length + ps1.length ∧
      t.provs = done ++ (ps1 ++ ({ p with inFlight := p.inFlight + 1 } :: ps2))) ∧
  (t.res.isReader = false →
    t.res = if t.missing.length = total then FetchRes.err .articleNotFoundSentinel
            else
              match t.savedErr with
              | some e => FetchRes.err e
              | none => FetchRes.err .providerBusySentinel)

/-!
## `sanitizeFileName` (`internal/processor/fs.go`)

Subjects are modelled as lists of rune codepoints.  `html.UnescapeString`
is a Go standard-library function outside this repository, so it enters
the model as an opaque parameter `unescape`; everything after it is
embedded from the source.  The two regular expressions are rendered by
their (easily traced) matching semantics: for `(?i)\s+yenc.*$` a match
starting at `i` exists exactly when the suffix at `i` begins with a
nonempty run of `\s` characters followed immediately by `yenc`
(case-insensitively) with no newline afterwards, and `ReplaceAllString`
with the empty string cuts the string at the leftmost such `i`; for
`^\[\d+/\d+\]\s+` the greedy runs are forced, so the match is the obvious
parse of a leading counter. -/

/-- Embeds `strings.Index(res, quote)` as an index option (scan from the
left). -/
def idxOfQuote : List Nat → Option Nat
  | [] => none
  | c :: rest => if c = 34 then some 0 else (idxOfQuote rest).map (· + 1)

/-- Embeds `strings.LastIndex(res, quote)` as an index option (scan from
the right). -/
def lastIdxOfQuote : List Nat → Option Nat
  | [] => none
  | c :: rest =>
    match lastIdxOfQuote rest with
    | some i => some (i + 1)
    | none => if c == 34 then some 0 else none

/-- The `\s` class of Go regular expressions: `[\t\n\f\r ]`. -/
def isSpaceRE (c : Nat) : Bool :=
  c == 9 || c == 10 || c == 12 || c == 13 || c == 32

/-- ASCII lowercasing, for the `(?i)` flag on `yenc`. -/
def asciiLower (c : Nat) : Nat := if 65 ≤ c ∧ c ≤ 90 then c + 32 else c

/-- Does `(?i)\s+yenc.*$` match the whole suffix `s` (anchored at its
start, reaching the end of the text)? -/
def yencTailMatch (s : List Nat) : Bool :=
  !(s.takeWhile isSpaceRE).isEmpty &&
    ((s.dropWhile isSpaceRE).take 4).map asciiLower == strB ("yenc") &&
    ((s.dropWhile isSpaceRE).drop 4).all (fun c => c != 10)

/-- Position of the leftmost match of `(?i)\s+yenc.*$`. -/
def findYencIdx : List Nat → Option Nat
  | [] => none
  | s@(_ :: rest) =>
    if yencTailMatch s then some 0 else (findYencIdx rest).map (· + 1)

/-- Embeds `reYenc.ReplaceAllString(res, "")`. -/
def stripYenc (s : List Nat) : List Nat :=
  match findYencIdx s with
  | some i => s.take i
  | none => s

/-- Embeds `reLead.ReplaceAllString(res, "")` for `^\[\d+/\d+\]\s+`. -/
def stripLead (s : List Nat) : List Nat :=
  match s with
  | 91 :: rest =>
    let d1 := rest.takeWhile (fun c => 48 ≤ c ∧ c ≤ 57)
    let r1 := rest.dropWhile (fun c => 48 ≤ c ∧ c ≤ 57)
    if d1.isEmpty then s
    else
      match r1 with
      | 47 :: r2 =>
        let d2 := r2.takeWhile (fun c => 48 ≤ c ∧ c ≤ 57)
        let r3 := r2.dropWhile (fun c => 48 ≤ c ∧ c ≤ 57)
        if d2.isEmpty then s
        else
          match r3 with
          | 93 :: r4 =>
            if (r4.takeWhile isSpaceRE).isEmpty then s
            else r4.dropWhile isSpaceRE
          | _ => s
      | _ => s
  | _ => s

/-- Embeds `badChars.ReplaceAllString(res, "_")` for `[\\/:*?"<>|]`. -/
def replaceBad (s : List Nat) : List Nat :=
  s.map fun c =>
    if [92, 47, 58, 42, 63, 34, 60, 62, 124].contains c then 95 else c

/-- Embeds `strings.TrimSpace` (Latin-1 fragment of `unicode.IsSpace`,
which covers every character the sanitizer's callers produce). -/
def trimSpace (s : List Nat) : List Nat :=
  ((s.dropWhile isSpaceGo).reverse.dropWhile isSpaceGo).reverse

/-- The branch of `sanitizeFileName` between unescaping and the final
character cleanup: quoted content when present, else the two regex
strips. -/
def sanitizeCore (res : List Nat) : List Nat :=
  match idxOfQuote res, lastIdxOfQuote res with
  | some i, some j =>
    if i < j then (res.take j).drop (i + 1)
    else stripLead (stripYenc res)
  | _, _ => stripLead (stripYenc res)

/-- Embeds `sanitizeFileName`. -/
def sanitizeFileName (unescape : List Nat → List Nat) (subject : List Nat) : List Nat :=
  trimSpace (replaceBad (sanitizeCore (unescape subject)))

/-- Indices of double quotes, in order — the spec-side rendering of
"a first and a last double quote". -/
def quoteIdxs (s : List Nat) : List Nat :=
  (List.range s.length).filter (fun k => s.getD k 0 == 34)

/-- The claim's wording of the quoted-content step: if a first and a last
double quote exist with the first strictly before the last, the substring
strictly between them; otherwise the trailing-`yenc` strip followed by the
leading-counter strip. -/
def sanitizeCoreSpec (u : List Nat) : List Nat :=
  match (quoteIdxs u).head?, (quoteIdxs u).getLast? with
  | some i, some j =>
    if i < j then (u.drop (i + 1)).take (j - (i + 1))
    else stripLead (stripYenc u)
  | _, _ => stripLead (stripYenc u)

/-- The sanitization pipeline exactly as the specification words it:
HTML-unescape; quoted content (or the two strips); replace the nine
forbidden characters by `_`; trim surrounding whitespace. -/
def sanitizeFileNameSpec (unescape : List Nat → List Nat) (subject : List Nat) :
    List Nat :=
  trimSpace (replaceBad (sanitizeCoreSpec (unescape subject)))

/-!
## Helper lemmas
-/

lemma decDigitsFuel_head (fuel n : Nat) :
    ∃ c rest, decDigitsFuel fuel n = c :: rest ∧ 48 ≤ c ∧ c ≤ 57 := by
  induction fuel generalizing n with
  | zero =>
    refine ⟨n % 10 + 48, [], rfl, by omega, ?_⟩
    have : n % 10 < 10 := Nat.mod_lt _ (by norm_num)
    omega
  | succ fuel ih =>
    by_cases h : n < 10
    · exact ⟨n + 48, [], by simp [decDigitsFuel, h], by omega, by omega⟩
    · obtain ⟨c, rest, hEq, h1, h2⟩ := ih (n / 10)
      exact ⟨c, rest ++ [n % 10 + 48], by simp [decDigitsFuel, h, hEq], h1, h2⟩

lemma decDigitsFuel_mem (fuel n : Nat) :
    ∀ c ∈ decDigitsFuel fuel n, 48 ≤ c ∧ c ≤ 57 := by
  induction fuel generalizing n with
  | zero =>
    intro c hc
    simp only [decDigitsFuel, List.mem_singleton] at hc
    have : n % 10 < 10 := Nat.mod_lt _ (by norm_num)
    omega
  | succ fuel ih =>
    intro c hc
    by_cases h : n < 10
    · simp only [decDigitsFuel, if_pos h, List.mem_singleton] at hc
      omega
    · simp only [decDigitsFuel, if_neg h, List.mem_append, List.mem_singleton] at hc
      rcases hc with hc | hc
      · exact ih (n / 10) c hc
      · have : n % 10 < 10 := Nat.mod_lt _ (by omega)
        omega

lemma decDigitVal_digit (n : Nat) (h : n < 10) : decDigitVal (n + 48) = some n := by
  unfold decDigitVal
  rw [if_pos (by omega : 48 ≤ n + 48 ∧ n + 48 ≤ 57)]
  exact congrArg some (by omega)

lemma parseDecCore_decDigitsFuel (fuel : Nat) :
    ∀ n t acc, n ≤ fuel →
      parseDecCore (decDigitsFuel fuel n ++ t) acc =
        parseDecCore t (acc * 10 ^ (decDigitsFuel fuel n).length + n) := by
  induction fuel with
  | zero =>
    intro n t acc hn
    have hn0 : n = 0 := by omega
    subst hn0
    simpa [decDigitsFuel, parseDecCore] using
      by simp [decDigitVal_digit 0 (by norm_num), parseDecCore]
  | succ fuel ih =>
    intro n t acc hn
    by_cases h : n < 10
    · simp only [decDigitsFuel, if_pos h, List.cons_append, List.nil_append,
        parseDecCore, decDigitVal_digit n h, List.length_singleton, pow_one]
    · have hdiv : n / 10 ≤ fuel := by
        have := Nat.div_lt_self (show 0 < n by omega) (show 1 < 10 by norm_num)
        omega
      have hm : n % 10 < 10 := Nat.mod_lt _ (by omega)
      simp only [decDigitsFuel, if_neg h, List.append_assoc, List.cons_append,
        List.nil_append]
      rw [ih (n / 10) ((n % 10 + 48) :: t) acc hdiv]
      simp only [parseDecCore, decDigitVal_digit (n % 10) hm]
      have harg : (acc * 10 ^ (decDigitsFuel fuel (n / 10)).length + n / 10) * 10 +
          n % 10 =
          acc * 10 ^ ((decDigitsFuel fuel (n / 10)).length + 1) + n := by
        have hdm : 10 * (n / 10) + n % 10 = n := Nat.div_add_mod n 10
        rw [pow_succ]
        nlinarith [hdm]
      rw [harg, List.length_append, List.length_singleton]

lemma parseDecCore_decRepr (n : Nat) : parseDecCore (decRepr n) 0 = some n := by
  have h := parseDecCore_decDigitsFuel n n [] 0 le_rfl
  rw [List.append_nil] at h
  rw [decRepr, h]
  simp [parseDecCore]

/-- Round-trip: `strconv.ParseInt` in base 10 recovers a printed natural
number within the int64 range. -/
lemma parseInt64_decRepr (n : Nat) (hn : n ≤ 2 ^ 63 - 1) :
    parseInt64 (decRepr n) = some (Int.ofNat n) := by
  obtain ⟨c, rest, hEq, h1, h2⟩ := decDigitsFuel_head n n
  have hshape : decRepr n = c :: rest := by rw [decRepr]; exact hEq
  have hparse := parseDecCore_decRepr n
  rw [hshape] at hparse ⊢
  simp only [parseInt64]
  rw [if_neg (by omega : ¬c = 43), if_neg (by omega : ¬c = 45), hparse]
  have hn9 : n ≤ 9223372036854775807 := by
    have : (2 : Nat) ^ 63 - 1 = 9223372036854775807 := by norm_num
    omega
  simp [hn9]

lemma hexDigitsFuel_head (fuel n : Nat) :
    ∃ c rest, hexDigitsFuel fuel n = c :: rest := by
  induction fuel generalizing n with
  | zero => exact ⟨hexDigitCh (n % 16), [], rfl⟩
  | succ fuel ih =>
    by_cases h : n < 16
    · refine ⟨hexDigitCh n, [], ?_⟩
      simp [hexDigitsFuel, h]
    · obtain ⟨c, rest, hEq⟩ := ih (n / 16)
      refine ⟨c, rest ++ [hexDigitCh (n % 16)], ?_⟩
      simp [hexDigitsFuel, h, hEq]

lemma hexDigitCh_bounds (d : Nat) (hd : d < 16) :
    (48 ≤ hexDigitCh d ∧ hexDigitCh d ≤ 57) ∨ (65 ≤ hexDigitCh d ∧ hexDigitCh d ≤ 70) := by
  unfold hexDigitCh
  by_cases h : d < 10
  · left; rw [if_pos h]; omega
  · right; rw [if_neg h]; omega

lemma hexDigitsFuel_mem (fuel n : Nat) :
    ∀ c ∈ hexDigitsFuel fuel n,
      (48 ≤ c ∧ c ≤ 57) ∨ (65 ≤ c ∧ c ≤ 70) := by
  induction fuel generalizing n with
  | zero =>
    intro c hc
    simp only [hexDigitsFuel, List.mem_singleton] at hc
    subst hc
    exact hexDigitCh_bounds _ (Nat.mod_lt _ (by norm_num))
  | succ fuel ih =>
    intro c hc
    by_cases h : n < 16
    · simp only [hexDigitsFuel, if_pos h, List.mem_singleton] at hc
      subst hc
      exact hexDigitCh_bounds _ h
    · simp only [hexDigitsFuel, if_neg h, List.mem_append, List.mem_singleton] at hc
      rcases hc with hc | hc
      · exact ih (n / 16) c hc
      · subst hc
        exact hexDigitCh_bounds _ (Nat.mod_lt _ (by omega))

lemma hexDigitVal_hexDigitCh (d : Nat) (hd : d < 16) :
    hexDigitVal (hexDigitCh d) = some d := by
  unfold hexDigitVal hexDigitCh
  by_cases h : d < 10
  · rw [if_pos h, if_pos (by omega : 48 ≤ d + 48 ∧ d + 48 ≤ 57)]
    exact congrArg some (by omega)
  · rw [if_neg h, if_neg (by omega : ¬(48 ≤ d + 55 ∧ d + 55 ≤ 57)),
      if_neg (by omega : ¬(97 ≤ d + 55 ∧ d + 55 ≤ 102)),
      if_pos (by omega : 65 ≤ d + 55 ∧ d + 55 ≤ 70)]
    exact congrArg some (by omega)

lemma parseHexCore_hexDigitsFuel (fuel : Nat) :
    ∀ n t acc, n ≤ fuel →
      parseHexCore (hexDigitsFuel fuel n ++ t) acc =
        parseHexCore t (acc * 16 ^ (hexDigitsFuel fuel n).length + n) := by
  induction fuel with
  | zero =>
    intro n t acc hn
    have hn0 : n = 0 := by omega
    subst hn0
    simp [hexDigitsFuel, parseHexCore, hexDigitVal_hexDigitCh 0 (by norm_num)]
  | succ fuel ih =>
    intro n t acc hn
    by_cases h : n < 16
    · simp only [hexDigitsFuel, if_pos h, List.cons_append, List.nil_append,
        parseHexCore, hexDigitVal_hexDigitCh n h, List.length_singleton, pow_one]
    · have hdiv : n / 16 ≤ fuel := by
        have := Nat.div_lt_self (show 0 < n by omega) (show 1 < 16 by norm_num)
        omega
      simp only [hexDigitsFuel, if_neg h, List.append_assoc, List.cons_append,
        List.nil_append]
      rw [ih (n / 16) ((hexDigitCh (n % 16)) :: t) acc hdiv]
      simp only [parseHexCore, hexDigitVal_hexDigitCh (n % 16) (Nat.mod_lt _ (by omega))]
      have harg : (acc * 16 ^ (hexDigitsFuel fuel (n / 16)).length + n / 16) * 16 + n % 16 =
          acc * 16 ^ ((hexDigitsFuel fuel (n / 16)).length + 1) + n := by
        have hdm : 16 * (n / 16) + n % 16 = n := Nat.div_add_mod n 16
        rw [pow_succ]
        nlinarith [hdm]
      rw [harg, List.length_append, List.length_singleton]

/-- Round-trip: `strconv.ParseUint(·, 16, 32)` recovers a printed value
below `2^32`. -/
lemma parseUint32Hex_hexRepr (n : Nat) (hn : n < 2 ^ 32) :
    parseUint32Hex (hexRepr n) = some n := by
  obtain ⟨c, rest, hEq⟩ := hexDigitsFuel_head n n
  have hshape : hexRepr n = c :: rest := by rw [hexRepr]; exact hEq
  have hparse : parseHexCore (hexRepr n) 0 = some n := by
    have h := parseHexCore_hexDigitsFuel n n [] 0 le_rfl
    rw [List.append_nil] at h
    rw [hexRepr, h]
    simp [parseHexCore]
  rw [hshape] at hparse ⊢
  simp only [parseUint32Hex]
  rw [hparse]
  have hn4 : n < 4294967296 := by
    have : (2 : Nat) ^ 32 = 4294967296 := by norm_num
    omega
  simp [hn4]

lemma crcRound_lt (r : Nat) (hr : r < 2 ^ 32) : crcRound r < 2 ^ 32 := by
  unfold crcRound
  have hdiv : r / 2 < 2 ^ 32 := Nat.lt_of_le_of_lt (Nat.div_le_self r 2) hr
  by_cases h : r % 2 = 1
  · rw [if_pos h]
    exact Nat.xor_lt_two_pow hdiv (by norm_num)
  · rw [if_neg h]
    exact hdiv

lemma crcRounds_lt (k r : Nat) (hr : r < 2 ^ 32) : crcRounds k r < 2 ^ 32 := by
  induction k generalizing r with
  | zero => exact hr
  | succ k ih => exact ih _ (crcRound_lt r hr)

lemma crcByte_lt (crc b : Nat) (hc : crc < 2 ^ 32) (hb : b < 256) :
    crcByte crc b < 2 ^ 32 :=
  crcRounds_lt 8 _ (Nat.xor_lt_two_pow hc (by omega))

/-- The CRC32 accumulator stays below `2^32` on byte inputs. -/
lemma crc32List_lt (bs : List Nat) (hbs : ∀ b ∈ bs, b < 256) :
    crc32List bs < 2 ^ 32 := by
  unfold crc32List
  have hfold : ∀ acc, acc < 2 ^ 32 → bs.foldl crcByte acc < 2 ^ 32 := by
    induction bs with
    | nil => intro acc h; exact h
    | cons b rest ih =>
      intro acc h
      simp only [List.foldl_cons]
      exact ih (fun x hx => hbs x (List.mem_cons_of_mem _ hx)) _
        (crcByte_lt acc b h (hbs b (List.mem_cons_self _ _)))
  exact Nat.xor_lt_two_pow (hfold _ (by norm_num)) (by norm_num)

lemma getElem?_append_len {α : Type} (l1 l2 : List α) (a : α) :
    (l1 ++ a :: l2)[l1.length]? = some a := by
  induction l1 with
  | nil => simp
  | cons x l1 ih => simpa using ih

lemma set_append_len {α : Type} (l1 l2 : List α) (a x : α) :
    (l1 ++ a :: l2).set l1.length x = l1 ++ x :: l2 := by
  induction l1 with
  | nil => rfl
  | cons y l1 ih => simp [List.set, ih]

lemma FetchLoopInv_base (missing : List String) (se : Option GoErr)
    (bsk att : Nat) (done : List MProvider) (total : Nat) :
    FetchLoopInv (fetchLoop [] missing se bsk att done total) done [] total := by
  refine ⟨?_, ?_, ?_⟩
  · intro e _
    simp [fetchLoop]
  · intro r hr
    simp only [fetchLoop] at hr
    split at hr
    · exact FetchRes.noConfusion hr
    · split at hr
      · exact FetchRes.noConfusion hr
      · exact FetchRes.noConfusion hr
  · intro _
    simp [fetchLoop]

lemma FetchLoopInv_cons (t : FetchTrace) (done : List MProvider) (p : MProvider)
    (rest : List MProvider) (total : Nat)
    (h : FetchLoopInv t (done ++ [p]) rest total) :
    FetchLoopInv t done (p :: rest) total := by
  obtain ⟨h1, h2, h3⟩ := h
  refine ⟨?_, ?_, h3⟩
  · intro e he
    rw [h1 e he]
    simp
  · intro r hr
    obtain ⟨hp, q, ps1, ps2, hsplit, hlt, hout, hidx, hprovs⟩ := h2 r hr
    refine ⟨hp, q, p :: ps1, ps2, by simp [hsplit], hlt, hout, ?_, ?_⟩
    · rw [hidx]
      simp
      omega
    · rw [hprovs]
      simp

/-- Closing the reader returned for the provider at position `ps1.length`
undoes exactly the slot acquisition recorded there. -/
lemma closeReader_restore (ps1 ps2 : List MProvider) (qpid : String)
    (qmax qin : Nat) (qout : FetchOutcome) :
    closeReader ⟨ps1.length, true⟩ (ps1 ++ ⟨qpid, qmax, qin + 1, qout⟩ :: ps2) =
      (⟨ps1.length, false⟩, ps1 ++ ⟨qpid, qmax, qin, qout⟩ :: ps2) := by
  have hget := getElem?_append_len ps1 ps2 (⟨qpid, qmax, qin + 1, qout⟩ : MProvider)
  have hset := set_append_len ps1 ps2 (⟨qpid, qmax, qin + 1, qout⟩ : MProvider)
    (⟨qpid, qmax, qin + 1 - 1, qout⟩ : MProvider)
  simp [closeReader, hget, hset]

/-- Main loop invariant of `Manager.Fetch`. -/
lemma fetchLoop_spec (ps : List MProvider) :
    ∀ (missing : List String) (se : Option GoErr) (bsk att : Nat)
      (done : List MProvider) (total : Nat),
      FetchLoopInv (fetchLoop ps missing se bsk att done total) done ps total := by
  induction ps with
  | nil =>
    intro missing se bsk att done total
    exact FetchLoopInv_base missing se bsk att done total
  | cons p rest ih =>
    intro missing se bsk att done total
    obtain ⟨ppid, pmax, pin, pout⟩ := p
    by_cases h1 : ppid ∈ missing
    · have hstep : fetchLoop (⟨ppid, pmax, pin, pout⟩ :: rest) missing se bsk att done total =
          fetchLoop rest missing se bsk att (done ++ [⟨ppid, pmax, pin, pout⟩]) total := by
        simp [fetchLoop, h1]
      rw [hstep]
      exact FetchLoopInv_cons _ done _ rest total (ih _ _ _ _ _ _)
    · by_cases h2 : pin < pmax
      · cases pout with
        | success =>
          have hstep : fetchLoop (⟨ppid, pmax, pin, .success⟩ :: rest) missing se bsk att done total =
              { res := .reader { idx := done.length, releasePending := true },
                provs := done ++ (⟨ppid, pmax, pin + 1, .success⟩ :: rest),
                missing := missing, busySkips := bsk, savedErr := se,
                attempts := att + 1 } := by
            simp [fetchLoop, h1, h2]
          rw [hstep]
          refine ⟨?_, ?_, ?_⟩
          · intro e he
            simp at he
          · intro r hr
            simp only [FetchRes.reader.injEq] at hr
            subst hr
            exact ⟨rfl, ⟨ppid, pmax, pin, .success⟩, [], rest, by simp, h2, rfl,
              by simp, by simp⟩
          · intro hb
            simp [FetchRes.isReader] at hb
        | notFound =>
          have hstep : fetchLoop (⟨ppid, pmax, pin, .notFound⟩ :: rest) missing se bsk att done total =
              fetchLoop rest (insertMissing missing ppid) se bsk (att + 1)
                (done ++ [⟨ppid, pmax, pin, .notFound⟩]) total := by
            simp [fetchLoop, h1, h2]
          rw [hstep]
          exact FetchLoopInv_cons _ done _ rest total (ih _ _ _ _ _ _)
        | failure e =>
          have hstep : fetchLoop (⟨ppid, pmax, pin, .failure e⟩ :: rest) missing se bsk att done total =
              fetchLoop rest missing (some e) bsk (att + 1)
                (done ++ [⟨ppid, pmax, pin, .failure e⟩]) total := by
            simp [fetchLoop, h1, h2]
          rw [hstep]
          exact FetchLoopInv_cons _ done _ rest total (ih _ _ _ _ _ _)
      · have hstep : fetchLoop (⟨ppid, pmax, pin, pout⟩ :: rest) missing se bsk att done total =
            fetchLoop rest missing se (bsk + 1) att (done ++ [⟨ppid, pmax, pin, pout⟩]) total := by
          simp [fetchLoop, h1, h2]
        rw [hstep]
        exact FetchLoopInv_cons _ done _ rest total (ih _ _ _ _ _ _)

/-- When every provider is already marked missing the loop only skips. -/
lemma fetchLoop_all_missing (ps : List MProvider) :
    ∀ (missing : List String) (se : Option GoErr) (bsk att : Nat)
      (done : List MProvider) (total : Nat),
      (∀ p ∈ ps, missing.contains p.pid = true) →
      fetchLoop ps missing se bsk att done total =
        fetchLoop [] missing se bsk att (done ++ ps) total := by
  induction ps with
  | nil =>
    intro missing se bsk att done total _
    simp
  | cons p rest ih =>
    intro missing se bsk att done total h
    have h1 : p.pid ∈ missing := by
      have := h p (List.mem_cons_self _ _)
      simpa using this
    have hstep : fetchLoop (p :: rest) missing se bsk att done total =
        fetchLoop rest missing se bsk att (done ++ [p]) total := by
      simp [fetchLoop, h1]
    rw [hstep, ih missing se bsk att (done ++ [p]) total
      (fun q hq => h q (List.mem_cons_of_mem _ hq))]
    simp

lemma startsWith_append (p t : List Nat) : startsWith (p ++ t) p = true := by
  induction p with
  | nil => cases t <;> rfl
  | cons c p ih => simp [startsWith, ih]

lemma startsWith_cons_ne (c : Nat) (s : List Nat) (d : Nat) (p : List Nat)
    (h : c ≠ d) : startsWith (c :: s) (d :: p) = false := by
  simp [startsWith, h]

lemma readLine_append (w rest : List Nat) (hw : ∀ ch ∈ w, ch ≠ 10) :
    readLine (w ++ 10 :: rest) = (w ++ [10], rest, true) := by
  induction w with
  | nil => simp [readLine]
  | cons c w ih =>
    have hc : c ≠ 10 := hw c (List.mem_cons_self _ _)
    simp only [List.cons_append, readLine, List.append_eq, if_neg hc]
    rw [ih (fun ch hch => hw ch (List.mem_cons_of_mem _ hch))]

lemma fieldsAux_word (w : List Nat) :
    ∀ (s cur : List Nat), (∀ ch ∈ w, isSpaceGo ch = false) →
      fieldsAux (w ++ s) cur = fieldsAux s (w.reverse ++ cur) := by
  induction w with
  | nil => intro s cur _; simp
  | cons c w ih =>
    intro s cur hw
    have hc : isSpaceGo c = false := hw c (List.mem_cons_self _ _)
    simp only [List.cons_append, fieldsAux, List.append_eq, hc, Bool.false_eq_true,
      if_false]
    rw [ih s (c :: cur) (fun ch hch => hw ch (List.mem_cons_of_mem _ hch))]
    simp

lemma fields_wordsJoin : ∀ (ws : List (List Nat)),
    (∀ w ∈ ws, w ≠ [] ∧ ∀ ch ∈ w, isSpaceGo ch = false) →
    fields (wordsJoin ws ++ [10]) = ws := by
  intro ws
  induction ws with
  | nil => intro _; rfl
  | cons w ws ih =>
    intro h
    obtain ⟨hwne, hwns⟩ := h w (List.mem_cons_self _ _)
    have hrevne : (w.reverse ++ ([] : List Nat)).isEmpty = false := by
      rw [List.append_nil]
      cases hw : w.reverse with
      | nil => exact absurd (by simpa using hw) hwne
      | cons a l => rfl
    cases ws with
    | nil =>
      unfold fields
      rw [show wordsJoin [w] = w from rfl]
      rw [fieldsAux_word w [10] [] hwns]
      simp only [fieldsAux, show isSpaceGo 10 = true from rfl, if_true, hrevne,
        Bool.false_eq_true, if_false]
      simp
    | cons w2 ws2 =>
      unfold fields
      rw [show wordsJoin (w :: w2 :: ws2) = w ++ [32] ++ wordsJoin (w2 :: ws2) from rfl]
      rw [List.append_assoc, List.append_assoc, List.singleton_append,
        fieldsAux_word w _ [] hwns]
      simp only [fieldsAux, show isSpaceGo 32 = true from rfl, if_true, hrevne,
        Bool.false_eq_true, if_false]
      have ihr := ih (fun q hq => h q (List.mem_cons_of_mem _ hq))
      unfold fields at ihr
      rw [ihr]
      simp

lemma wordsJoin_mem : ∀ (ws : List (List Nat)) (ch : Nat), ch ∈ wordsJoin ws →
    ch = 32 ∨ ∃ w ∈ ws, ch ∈ w := by
  intro ws
  induction ws with
  | nil => intro ch h; simp [wordsJoin] at h
  | cons w ws ih =>
    intro ch h
    cases ws with
    | nil =>
      right
      exact ⟨w, List.mem_cons_self _ _, by simpa [wordsJoin] using h⟩
    | cons w2 ws2 =>
      rw [show wordsJoin (w :: w2 :: ws2) = w ++ [32] ++ wordsJoin (w2 :: ws2) from rfl] at h
      simp only [List.mem_append, List.mem_singleton] at h
      rcases h with (h | h) | h
      · right; exact ⟨w, by simp, h⟩
      · left; exact h
      · rcases ih ch h with h32 | ⟨w3, hw3, hch⟩
        · left; exact h32
        · right; exact ⟨w3, by simp [hw3], hch⟩

lemma chOk_not_space (c : Nat) (h : chOk c) : isSpaceGo c = false := by
  obtain ⟨h1, h2⟩ := h
  simp only [isSpaceGo]
  simp only [Bool.or_eq_false_iff]
  refine ⟨⟨⟨⟨⟨⟨⟨?_, ?_⟩, ?_⟩, ?_⟩, ?_⟩, ?_⟩, ?_⟩, ?_⟩ <;> simp <;> omega

lemma chOk_ne10 (c : Nat) (h : chOk c) : c ≠ 10 := by
  obtain ⟨h1, _⟩ := h
  omega

lemma wordOk_append_digits (a : List Nat) (ha : wordOk a) (n : Nat) :
    wordOk (a ++ decRepr n) := by
  obtain ⟨hne, hch⟩ := ha
  refine ⟨by simp [hne], ?_⟩
  intro ch hmem
  rcases List.mem_append.mp hmem with h | h
  · exact hch ch h
  · have := decDigitsFuel_mem n n ch h
    exact ⟨by omega, by omega⟩

lemma wordOk_append_hex (a : List Nat) (ha : wordOk a) (n : Nat) :
    wordOk (a ++ hexRepr n) := by
  obtain ⟨hne, hch⟩ := ha
  refine ⟨by simp [hne], ?_⟩
  intro ch hmem
  rcases List.mem_append.mp hmem with h | h
  · exact hch ch h
  · rcases hexDigitsFuel_mem n n ch h with hd | hd
    · exact ⟨by omega, by omega⟩
    · exact ⟨by omega, by omega⟩

lemma fields_of_okWords (ws : List (List Nat)) (h : ∀ w ∈ ws, wordOk w) :
    fields (wordsJoin ws ++ [10]) = ws :=
  fields_wordsJoin ws (fun w hw =>
    ⟨(h w hw).1, fun ch hch => chOk_not_space ch ((h w hw).2 ch hch)⟩)

lemma wordsJoin_no10 (ws : List (List Nat)) (h : ∀ w ∈ ws, wordOk w) :
    ∀ ch ∈ wordsJoin ws, ch ≠ 10 := by
  intro ch hch
  rcases wordsJoin_mem ws ch hch with h32 | ⟨w, hw, hchw⟩
  · omega
  · exact chOk_ne10 ch ((h w hw).2 ch hchw)

lemma foldl_fileSize_shape (g : YencDecoder → List Nat → YencDecoder)
    (hg : ∀ d w, g d w = d ∨ ∃ v, g d w = { d with fileSize := v }) :
    ∀ (ps : List (List Nat)) (d : YencDecoder),
      ∃ fs, List.foldl g d ps = { d with fileSize := fs } := by
  intro ps
  induction ps with
  | nil =>
    intro d
    exact ⟨d.fileSize, by cases d; rfl⟩
  | cons w ps ih =>
    intro d
    rw [List.foldl_cons]
    rcases hg d w with h | ⟨v, h⟩
    · rw [h]
      exact ih d
    · rw [h]
      obtain ⟨fs, hfs⟩ := ih { d with fileSize := v }
      exact ⟨fs, by rw [hfs]⟩

lemma foldl_partOffset_shape (g : YencDecoder → List Nat → YencDecoder)
    (hg : ∀ d w, g d w = d ∨ ∃ v, g d w = { d with partOffset := v }) :
    ∀ (ps : List (List Nat)) (d : YencDecoder),
      ∃ po, List.foldl g d ps = { d with partOffset := po } := by
  intro ps
  induction ps with
  | nil =>
    intro d
    exact ⟨d.partOffset, by cases d; rfl⟩
  | cons w ps ih =>
    intro d
    rw [List.foldl_cons]
    rcases hg d w with h | ⟨v, h⟩
    · rw [h]
      exact ih d
    · rw [h]
      obtain ⟨po, hpo⟩ := ih { d with partOffset := v }
      exact ⟨po, by rw [hpo]⟩

/-- `parseYbegin` touches only the `fileSize` field. -/
lemma parseYbegin_shape (d : YencDecoder) (line : List Nat) :
    ∃ fs, parseYbegin d line = { d with fileSize := fs } := by
  unfold parseYbegin
  apply foldl_fileSize_shape
  intro d w
  by_cases hw : startsWith w (strB ("size=")) = true
  · cases hp : parseInt64 (w.drop 5) with
    | some v =>
      right
      exact ⟨v, by simp [ybeginField, hw, hp]⟩
    | none =>
      left
      simp [ybeginField, hw, hp]
  · left
    simp [ybeginField, hw]

/-- `parsePartLine` touches only the `partOffset` field. -/
lemma parsePartLine_shape (d : YencDecoder) (line : List Nat) :
    ∃ po, parsePartLine d line = { d with partOffset := po } := by
  unfold parsePartLine
  apply foldl_partOffset_shape
  intro d w
  by_cases hw : startsWith w (strB ("begin=")) = true
  · cases hp : parseInt64 (w.drop 6) with
    | some v =>
      right
      exact ⟨v - 1, by simp [ypartField, hw, hp]⟩
    | none =>
      left
      simp [ypartField, hw, hp]
  · left
    simp [ypartField, hw]

lemma ybeginField_skip (d : YencDecoder) (w : List Nat)
    (h : startsWith w (strB ("size=")) = false) : ybeginField d w = d := by
  simp [ybeginField, h]

lemma ybeginField_set (d : YencDecoder) (w : List Nat) (v : Int)
    (h : startsWith w (strB ("size=")) = true)
    (hp : parseInt64 (w.drop 5) = some v) :
    ybeginField d w = { d with fileSize := v } := by
  simp [ybeginField, h, hp]

lemma ypartField_skip (d : YencDecoder) (w : List Nat)
    (h : startsWith w (strB ("begin=")) = false) : ypartField d w = d := by
  simp [ypartField, h]

lemma ypartField_set (d : YencDecoder) (w : List Nat) (v : Int)
    (h : startsWith w (strB ("begin=")) = true)
    (hp : parseInt64 (w.drop 6) = some v) :
    ypartField d w = { d with partOffset := v - 1 } := by
  simp [ypartField, h, hp]

lemma parseFooterFields_skip (d : YencDecoder) (part : List Nat)
    (rest : List (List Nat))
    (h1 : startsWith part (strB ("pcrc32=")) = false)
    (h2 : startsWith part (strB ("crc32=")) = false) :
    parseFooterFields d (part :: rest) = parseFooterFields d rest := by
  simp [parseFooterFields, h1, h2]

lemma parseFooterFields_pcrc (d : YencDecoder) (part : List Nat)
    (rest : List (List Nat)) (v : Nat)
    (h : startsWith part (strB ("pcrc32=")) = true)
    (hp : parseUint32Hex (part.drop 7) = some v) :
    parseFooterFields d (part :: rest) = { d with expectedCRC := v } := by
  simp [parseFooterFields, h, hp]

lemma ybeginWords_ok (n : Nat) :
    ∀ w ∈ [strB ("=ybegin"), strB ("part=1"), strB ("size=") ++ decRepr n,
      strB ("name=data")], wordOk w := by
  intro w hw
  simp only [List.mem_cons, List.not_mem_nil, or_false] at hw
  rcases hw with rfl | rfl | rfl | rfl
  · decide
  · decide
  · exact wordOk_append_digits _ (by decide) n
  · decide

lemma ypartWords_ok (b m : Nat) :
    ∀ w ∈ [strB ("=ypart"), strB ("begin=") ++ decRepr b,
      strB ("end=") ++ decRepr m], wordOk w := by
  intro w hw
  simp only [List.mem_cons, List.not_mem_nil, or_false] at hw
  rcases hw with rfl | rfl | rfl
  · decide
  · exact wordOk_append_digits _ (by decide) b
  · exact wordOk_append_digits _ (by decide) m

lemma yendWords_ok (c n : Nat) :
    ∀ w ∈ [strB ("yend"), strB ("size=") ++ decRepr n,
      strB ("pcrc32=") ++ hexRepr c], wordOk w := by
  intro w hw
  simp only [List.mem_cons, List.not_mem_nil, or_false] at hw
  rcases hw with rfl | rfl | rfl
  · decide
  · exact wordOk_append_digits _ (by decide) n
  · exact wordOk_append_hex _ (by decide) c

/-- `parseYbegin` on a well-formed `=ybegin` line stores the size. -/
lemma parseYbegin_frame (d : YencDecoder) (n : Nat) (hn : n ≤ 2 ^ 63 - 1) :
    parseYbegin d (ybeginLine n) = { d with fileSize := Int.ofNat n } := by
  have h1 : startsWith (strB ("=ybegin")) (strB ("size=")) = false := by decide
  have h2 : startsWith (strB ("part=1")) (strB ("size=")) = false := by decide
  have h3 : startsWith (strB ("size=") ++ decRepr n) (strB ("size=")) = true :=
    startsWith_append _ _
  have h4 : startsWith (strB ("name=data")) (strB ("size=")) = false := by decide
  have hdrop : (strB ("size=") ++ decRepr n).drop 5 = decRepr n :=
    List.drop_left (strB ("size=")) (decRepr n)
  have hparse : parseInt64 ((strB ("size=") ++ decRepr n).drop 5) =
      some (Int.ofNat n) := by
    rw [hdrop]; exact parseInt64_decRepr n hn
  show List.foldl ybeginField d (fields (ybeginLine n)) = _
  rw [show fields (ybeginLine n) = [strB ("=ybegin"), strB ("part=1"),
      strB ("size=") ++ decRepr n, strB ("name=data")] from
    fields_of_okWords _ (ybeginWords_ok n)]
  rw [List.foldl_cons, ybeginField_skip _ _ h1]
  rw [List.foldl_cons, ybeginField_skip _ _ h2]
  rw [List.foldl_cons, ybeginField_set _ _ _ h3 hparse]
  rw [List.foldl_cons, ybeginField_skip _ _ h4, List.foldl_nil]

/-- `parsePartLine` on a well-formed `=ypart` line stores `begin - 1`. -/
lemma parsePartLine_frame (d : YencDecoder) (b m : Nat) (hb : b ≤ 2 ^ 63 - 1) :
    parsePartLine d (ypartLine b m) = { d with partOffset := Int.ofNat b - 1 } := by
  have h1 : startsWith (strB ("=ypart")) (strB ("begin=")) = false := by decide
  have h2 : startsWith (strB ("begin=") ++ decRepr b) (strB ("begin=")) = true :=
    startsWith_append _ _
  have h3 : startsWith (strB ("end=") ++ decRepr m) (strB ("begin=")) = false := by
    rw [show strB ("end=") ++ decRepr m = 101 :: (strB ("nd=") ++ decRepr m) from rfl,
      show strB ("begin=") = 98 :: strB ("egin=") from rfl]
    exact startsWith_cons_ne _ _ _ _ (by omega)
  have hdrop : (strB ("begin=") ++ decRepr b).drop 6 = decRepr b :=
    List.drop_left (strB ("begin=")) (decRepr b)
  have hparse : parseInt64 ((strB ("begin=") ++ decRepr b).drop 6) =
      some (Int.ofNat b) := by
    rw [hdrop]; exact parseInt64_decRepr b hb
  show List.foldl ypartField d (fields (ypartLine b m)) = _
  rw [show fields (ypartLine b m) = [strB ("=ypart"),
      strB ("begin=") ++ decRepr b, strB ("end=") ++ decRepr m] from
    fields_of_okWords _ (ypartWords_ok b m)]
  rw [List.foldl_cons, ypartField_skip _ _ h1]
  rw [List.foldl_cons, ypartField_set _ _ _ h2 hparse]
  rw [List.foldl_cons, ypartField_skip _ _ h3, List.foldl_nil]

/-- `parseFooter` on a well-formed `=yend` line (after its `=`) stores the
`pcrc32` value and consumes the line. -/
lemma parseFooter_frame (d : YencDecoder) (c n : Nat) (hc : c < 2 ^ 32)
    (rest : List Nat) (hin : d.input = yendTail c n ++ rest) :
    parseFooter d = { d with input := rest, expectedCRC := c } := by
  have hsplit : yendTail c n ++ rest =
      wordsJoin [strB ("yend"), strB ("size=") ++ decRepr n,
        strB ("pcrc32=") ++ hexRepr c] ++ (10 :: rest) := by
    simp [yendTail, List.append_assoc]
  have hread : readLine (yendTail c n ++ rest) = (yendTail c n, rest, true) := by
    rw [hsplit, readLine_append _ _ (wordsJoin_no10 _ (yendWords_ok c n))]
    rfl
  have hfields : fields (yendTail c n) =
      [strB ("yend"), strB ("size=") ++ decRepr n, strB ("pcrc32=") ++ hexRepr c] :=
    fields_of_okWords _ (yendWords_ok c n)
  have hp1 : startsWith (strB ("yend")) (strB ("pcrc32=")) = false := by decide
  have hc1 : startsWith (strB ("yend")) (strB ("crc32=")) = false := by decide
  have hp2 : startsWith (strB ("size=") ++ decRepr n) (strB ("pcrc32=")) = false := by
    rw [show strB ("size=") ++ decRepr n = 115 :: (strB ("ize=") ++ decRepr n) from rfl,
      show strB ("pcrc32=") = 112 :: strB ("crc32=") from rfl]
    exact startsWith_cons_ne _ _ _ _ (by omega)
  have hc2 : startsWith (strB ("size=") ++ decRepr n) (strB ("crc32=")) = false := by
    rw [show strB ("size=") ++ decRepr n = 115 :: (strB ("ize=") ++ decRepr n) from rfl,
      show strB ("crc32=") = 99 :: strB ("rc32=") from rfl]
    exact startsWith_cons_ne _ _ _ _ (by omega)
  have hp3 : startsWith (strB ("pcrc32=") ++ hexRepr c) (strB ("pcrc32=")) = true :=
    startsWith_append _ _
  have hdrop : (strB ("pcrc32=") ++ hexRepr c).drop 7 = hexRepr c :=
    List.drop_left (strB ("pcrc32=")) (hexRepr c)
  have hparse : parseUint32Hex ((strB ("pcrc32=") ++ hexRepr c).drop 7) = some c := by
    rw [hdrop]; exact parseUint32Hex_hexRepr c hc
  have hstep : parseFooter d =
      parseFooterFields { d with input := rest } (fields (yendTail c n)) := by
    unfold parseFooter
    rw [hin, hread]
  rw [hstep, hfields, parseFooterFields_skip _ _ _ hp1 hc1,
    parseFooterFields_skip _ _ _ hp2 hc2,
    parseFooterFields_pcrc _ _ _ c hp3 hparse]

lemma findHeaderAux_none : ∀ (input acc : List Nat),
    (∀ l ∈ completeLinesAux input acc, startsWith l (strB ("=ybegin")) = false) →
    findHeaderAux input acc = none := by
  intro input
  induction input with
  | nil => intro acc _; rfl
  | cons c rest ih =>
    intro acc h
    by_cases hc : c = 10
    · subst hc
      have hmem : (acc.reverse ++ [10]) ∈ completeLinesAux (10 :: rest) acc := by
        simp [completeLinesAux]
      have hline : startsWith ((10 :: acc).reverse) (strB ("=ybegin")) = false := by
        have hl := h _ hmem
        simpa [List.reverse_cons] using hl
      simp only [findHeaderAux, if_pos rfl, hline, Bool.false_eq_true, if_false]
      apply ih []
      intro l hl
      apply h
      simp [completeLinesAux, hl]
    · simp only [findHeaderAux, if_neg hc]
      apply ih (c :: acc)
      intro l hl
      apply h
      simpa [completeLinesAux, hc] using hl

lemma findHeaderAux_word : ∀ (w rest acc : List Nat),
    (∀ ch ∈ w, ch ≠ 10) →
    findHeaderAux (w ++ 10 :: rest) acc =
      (if startsWith (acc.reverse ++ (w ++ [10])) (strB ("=ybegin")) = true
       then some (acc.reverse ++ (w ++ [10]), rest)
       else findHeaderAux rest []) := by
  intro w
  induction w with
  | nil =>
    intro rest acc _
    simp [findHeaderAux]
  | cons c w ih =>
    intro rest acc hw
    have hc : c ≠ 10 := hw c (List.mem_cons_self _ _)
    simp only [List.cons_append, findHeaderAux, List.append_eq, if_neg hc]
    rw [ih rest (c :: acc) (fun ch hch => hw ch (List.mem_cons_of_mem _ hch))]
    simp [List.reverse_cons, List.append_assoc]

lemma findHeaderAux_junk : ∀ (junk : List (List Nat)) (tail : List Nat),
    (∀ l ∈ junk, (∀ ch ∈ l, ch ≠ 10) ∧
      startsWith (l ++ [10]) (strB ("=ybegin")) = false) →
    findHeaderAux ((junk.map (fun l => l ++ [10])).flatten ++ tail) [] =
      findHeaderAux tail [] := by
  intro junk
  induction junk with
  | nil => intro tail _; simp
  | cons l junk ih =>
    intro tail h
    obtain ⟨hno10, hnyb⟩ := h l (List.mem_cons_self _ _)
    have hshape : (List.map (fun l => l ++ [10]) (l :: junk)).flatten ++ tail =
        l ++ (10 :: ((List.map (fun l => l ++ [10]) junk).flatten ++ tail)) := by
      simp [List.append_assoc]
    rw [hshape, findHeaderAux_word l _ [] hno10]
    simp only [List.reverse_nil, List.nil_append, hnyb, Bool.false_eq_true, if_false]
    exact ih tail (fun q hq => h q (List.mem_cons_of_mem _ hq))

lemma readCore_cons_plain (k b : Nat) (rest : List Nat)
    (h61 : b ≠ 61) (h13 : b ≠ 13) (h10 : b ≠ 10) :
    readCore (k + 1) (b :: rest) false =
      ((b + 214) % 256 :: (readCore k rest false).1,
        (readCore k rest false).2) := by
  simp [readCore, h61, h13, h10]

lemma readCore_cons_skip (k b : Nat) (rest : List Nat) (hb : b = 13 ∨ b = 10) :
    readCore (k + 1) (b :: rest) false = readCore (k + 1) rest false := by
  rcases hb with rfl | rfl <;> simp [readCore]

lemma readCore_cons_esc (k : Nat) (rest : List Nat)
    (h : rest.take 4 ≠ strB ("yend")) :
    readCore (k + 1) (61 :: rest) false = readCore (k + 1) rest true := by
  simp [readCore, h]

lemma readCore_cons_esc2 (k p : Nat) (rest : List Nat) :
    readCore (k + 1) (p :: rest) true =
      ((p + 150) % 256 :: (readCore k rest false).1,
        (readCore k rest false).2) := by
  simp [readCore]

lemma readCore_yend (k : Nat) (rest : List Nat)
    (h : rest.take 4 = strB ("yend")) :
    readCore (k + 1) (61 :: rest) false = ([], rest, false, .endMarker) := by
  simp [readCore, h]

lemma take4_ne_yend (p : Nat) (hp : p ≠ 121) (X : List Nat) :
    (p :: X).take 4 ≠ strB ("yend") := by
  intro hcontra
  rw [show (p :: X).take 4 = p :: X.take 3 from rfl,
    show strB ("yend") = 121 :: strB ("end") from by decide] at hcontra
  injection hcontra with h1 _
  exact hp h1

lemma yendTail_shape (c n : Nat) : yendTail c n =
    strB ("yend") ++ ([32] ++ (wordsJoin [strB ("size=") ++ decRepr n,
      strB ("pcrc32=") ++ hexRepr c] ++ [10])) := by
  simp [yendTail, wordsJoin, List.append_assoc]

lemma yendTail_take4 (c n : Nat) : (yendTail c n).take 4 = strB ("yend") := by
  rw [yendTail_shape, show (4 : Nat) = (strB ("yend")).length from by decide]
  exact List.take_left _ _

lemma encodeByte_esc (b : Nat)
    (he : (b + 42) % 256 = 0 ∨ (b + 42) % 256 = 10 ∨
      (b + 42) % 256 = 13 ∨ (b + 42) % 256 = 61) :
    encodeByte b = [61, ((b + 42) % 256 + 64) % 256] := by
  simp only [encodeByte]
  rw [if_pos he]

lemma encodeByte_plain (b : Nat)
    (he : ¬((b + 42) % 256 = 0 ∨ (b + 42) % 256 = 10 ∨
      (b + 42) % 256 = 13 ∨ (b + 42) % 256 = 61)) :
    encodeByte b = [(b + 42) % 256] := by
  simp only [encodeByte]
  rw [if_neg he]

lemma readCore_encode_take (F : List Nat) : ∀ (bs : List Nat) (k : Nat),
    (∀ b ∈ bs, b < 256) → k ≤ bs.length →
    readCore k (encodeBytes bs ++ F) false =
      (bs.take k, encodeBytes (bs.drop k) ++ F, false, .bufFull) := by
  intro bs
  induction bs with
  | nil =>
    intro k _ hk
    have hk0 : k = 0 := Nat.le_zero.mp hk
    subst hk0
    simp [readCore]
  | cons b bs ih =>
    intro k hmem hk
    cases k with
    | zero => simp [readCore]
    | succ k =>
      have hb : b < 256 := hmem b (List.mem_cons_self _ _)
      have hbs : ∀ x ∈ bs, x < 256 := fun x hx => hmem x (List.mem_cons_of_mem _ hx)
      have hk' : k ≤ bs.length := by
        simp only [List.length_cons] at hk
        omega
      by_cases he : (b + 42) % 256 = 0 ∨ (b + 42) % 256 = 10 ∨
          (b + 42) % 256 = 13 ∨ (b + 42) % 256 = 61
      · have henc : encodeBytes (b :: bs) ++ F =
            61 :: (((b + 42) % 256 + 64) % 256 :: (encodeBytes bs ++ F)) := by
          simp [encodeBytes, encodeByte_esc b he]
        have hpne : ((b + 42) % 256 + 64) % 256 ≠ 121 := by
          rcases he with h | h | h | h <;> rw [h] <;> decide
        rw [henc, readCore_cons_esc _ _ (take4_ne_yend _ hpne _),
          readCore_cons_esc2, ih k hbs hk']
        simp
        omega
      · have henc : encodeBytes (b :: bs) ++ F =
            (b + 42) % 256 :: (encodeBytes bs ++ F) := by
          simp [encodeBytes, encodeByte_plain b he]
        push_neg at he
        obtain ⟨he0, he10, he13, he61⟩ := he
        rw [henc, readCore_cons_plain _ _ _ he61 he13 he10, ih k hbs hk']
        simp
        omega

lemma readCore_encode_full (c n : Nat) : ∀ (bs : List Nat) (k : Nat),
    (∀ b ∈ bs, b < 256) → bs.length < k →
    readCore k (encodeBytes bs ++ ([13, 10, 61] ++ yendTail c n)) false =
      (bs, yendTail c n, false, .endMarker) := by
  intro bs
  induction bs with
  | nil =>
    intro k _ hk
    obtain ⟨k, rfl⟩ : ∃ k', k = k' + 1 := ⟨k - 1, by omega⟩
    have h0 : encodeBytes [] ++ ([13, 10, 61] ++ yendTail c n) =
        13 :: (10 :: (61 :: yendTail c n)) := by simp [encodeBytes]
    rw [h0, readCore_cons_skip _ _ _ (Or.inl rfl),
      readCore_cons_skip _ _ _ (Or.inr rfl),
      readCore_yend _ _ (yendTail_take4 c n)]
  | cons b bs ih =>
    intro k hmem hk
    obtain ⟨k, rfl⟩ : ∃ k', k = k' + 1 := ⟨k - 1, by omega⟩
    have hb : b < 256 := hmem b (List.mem_cons_self _ _)
    have hbs : ∀ x ∈ bs, x < 256 := fun x hx => hmem x (List.mem_cons_of_mem _ hx)
    have hk' : bs.length < k := by
      simp only [List.length_cons] at hk
      omega
    by_cases he : (b + 42) % 256 = 0 ∨ (b + 42) % 256 = 10 ∨
        (b + 42) % 256 = 13 ∨ (b + 42) % 256 = 61
    · have henc : encodeBytes (b :: bs) ++ ([13, 10, 61] ++ yendTail c n) =
          61 :: (((b + 42) % 256 + 64) % 256 ::
            (encodeBytes bs ++ ([13, 10, 61] ++ yendTail c n))) := by
        simp [encodeBytes, encodeByte_esc b he]
      have hpne : ((b + 42) % 256 + 64) % 256 ≠ 121 := by
        rcases he with h | h | h | h <;> rw [h] <;> decide
      rw [henc, readCore_cons_esc _ _ (take4_ne_yend _ hpne _),
        readCore_cons_esc2, ih k hbs hk']
      simp
      omega
    · have henc : encodeBytes (b :: bs) ++ ([13, 10, 61] ++ yendTail c n) =
          (b + 42) % 256 :: (encodeBytes bs ++ ([13, 10, 61] ++ yendTail c n)) := by
        simp [encodeBytes, encodeByte_plain b he]
      push_neg at he
      obtain ⟨he0, he10, he13, he61⟩ := he
      rw [henc, readCore_cons_plain _ _ _ he61 he13 he10, ih k hbs hk']
      simp
      omega

lemma Read_chunk (cap : Nat) (bs F h : List Nat) (e0 : Nat) (po fs : Int)
    (hmem : ∀ b ∈ bs, b < 256) (hcap : cap ≤ bs.length) :
    Read cap { input := encodeBytes bs ++ F, escaped := false,
               reachedEnd := false, hashAcc := h, expectedCRC := e0,
               partOffset := po, fileSize := fs } =
      (bs.take cap,
       { input := encodeBytes (bs.drop cap) ++ F, escaped := false,
         reachedEnd := false, hashAcc := h ++ bs.take cap,
         expectedCRC := e0, partOffset := po, fileSize := fs }, none) := by
  have hcore := readCore_encode_take F bs cap hmem hcap
  unfold Read
  simp only [hcore, Bool.false_eq_true, if_false]

lemma Read_full (cap : Nat) (bs h : List Nat) (c n e0 : Nat) (po fs : Int)
    (hmem : ∀ b ∈ bs, b < 256) (hcap : bs.length < cap) (hc : c < 2 ^ 32) :
    Read cap { input := encodeBytes bs ++ ([13, 10, 61] ++ yendTail c n),
               escaped := false, reachedEnd := false, hashAcc := h,
               expectedCRC := e0, partOffset := po, fileSize := fs } =
      (bs, { input := [], escaped := false, reachedEnd := true,
             hashAcc := h ++ bs, expectedCRC := c, partOffset := po,
             fileSize := fs }, some GoErr.eof) := by
  have hfoot := parseFooter_frame
    { input := yendTail c n, escaped := false, reachedEnd := true,
      hashAcc := h, expectedCRC := e0, partOffset := po, fileSize := fs }
    c n hc [] (by simp)
  have hcore := readCore_encode_full c n bs cap hmem hcap
  unfold Read
  simp only [hcore, hfoot, Bool.false_eq_true, if_false]

lemma readToEnd_encode (c n cap : Nat) (hcap : 1 ≤ cap) (hc : c < 2 ^ 32) :
    ∀ (fuel : Nat) (bs h : List Nat) (e0 : Nat) (po fs : Int),
      (∀ b ∈ bs, b < 256) → bs.length < fuel →
      readToEnd cap fuel
        { input := encodeBytes bs ++ ([13, 10, 61] ++ yendTail c n),
          escaped := false, reachedEnd := false, hashAcc := h,
          expectedCRC := e0, partOffset := po, fileSize := fs } =
        (bs, { input := [], escaped := false, reachedEnd := true,
               hashAcc := h ++ bs, expectedCRC := c, partOffset := po,
               fileSize := fs }, some GoErr.eof) := by
  intro fuel
  induction fuel with
  | zero =>
    intro bs h e0 po fs _ hfuel
    omega
  | succ fuel ih =>
    intro bs h e0 po fs hmem hfuel
    by_cases hlen : bs.length < cap
    · simp only [readToEnd]
      rw [Read_full cap bs h c n e0 po fs hmem hlen hc]
    · push_neg at hlen
      simp only [readToEnd]
      rw [Read_chunk cap bs ([13, 10, 61] ++ yendTail c n) h e0 po fs hmem hlen]
      have ihh := ih (bs.drop cap) (h ++ bs.take cap) e0 po fs
        (fun x hx => hmem x (List.mem_of_mem_drop hx))
        (by simp only [List.length_drop]; omega)
      simp only [ihh, List.append_assoc, List.take_append_drop]

lemma ypartLine_split (b m : Nat) (rest : List Nat) :
    ypartLine b m ++ rest = strB ("=ypart") ++ ([32] ++
      (wordsJoin [strB ("begin=") ++ decRepr b,
        strB ("end=") ++ decRepr m] ++ (10 :: rest))) := by
  simp [ypartLine, wordsJoin, List.append_assoc]

lemma handlePart_ypart (d : YencDecoder) (b m : Nat) (hb : b ≤ 2 ^ 63 - 1)
    (rest : List Nat) (hin : d.input = ypartLine b m ++ rest) :
    handlePotentialPartHeader d =
      .ok { d with input := rest, partOffset := Int.ofNat b - 1 } := by
  have h6 : (strB ("=ypart")).length = 6 := by decide
  have hlen : ¬ d.input.length < 6 := by
    rw [hin, ypartLine_split]
    simp [h6]
  have htake : d.input.take 6 = strB ("=ypart") := by
    rw [hin, ypartLine_split, show (6 : Nat) = (strB ("=ypart")).length from by decide]
    exact List.take_left _ _
  have hcont : containsSub (d.input.take 6) (strB ("=ypart")) = true := by
    rw [htake]
    decide
  have hread : readLine d.input = (ypartLine b m, rest, true) := by
    have hsplit : d.input = wordsJoin [strB ("=ypart"),
        strB ("begin=") ++ decRepr b, strB ("end=") ++ decRepr m] ++
          (10 :: rest) := by
      rw [hin]
      simp [ypartLine, wordsJoin, List.append_assoc]
    rw [hsplit, readLine_append _ _ (wordsJoin_no10 _ (ypartWords_ok b m))]
    rfl
  unfold handlePotentialPartHeader
  rw [if_neg hlen, if_pos hcont]
  simp only [hread]
  rw [parsePartLine_frame { d with input := rest } b m hb]
  simp

lemma DiscardHeader_found (junk : List (List Nat)) (n b m : Nat)
    (rest : List Nat)
    (hjunk : ∀ l ∈ junk, (∀ ch ∈ l, ch ≠ 10) ∧
      startsWith (l ++ [10]) (strB ("=ybegin")) = false)
    (hn : n ≤ 2 ^ 63 - 1) (hb : b ≤ 2 ^ 63 - 1) :
    DiscardHeader (NewYencDecoder
      ((junk.map (fun l => l ++ [10])).flatten ++
        (ybeginLine n ++ (ypartLine b m ++ rest)))) =
      .ok { input := rest, escaped := false, reachedEnd := false,
            hashAcc := [], expectedCRC := 0,
            partOffset := Int.ofNat b - 1, fileSize := Int.ofNat n } := by
  have hno10 : ∀ ch ∈ wordsJoin [strB ("=ybegin"), strB ("part=1"),
      strB ("size=") ++ decRepr n, strB ("name=data")], ch ≠ 10 :=
    wordsJoin_no10 _ (ybeginWords_ok n)
  have hyb : ybeginLine n ++ (ypartLine b m ++ rest) =
      wordsJoin [strB ("=ybegin"), strB ("part=1"),
        strB ("size=") ++ decRepr n, strB ("name=data")] ++
        (10 :: (ypartLine b m ++ rest)) := by
    simp [ybeginLine, List.append_assoc]
  have hstart : startsWith (([] : List Nat).reverse ++
      (wordsJoin [strB ("=ybegin"), strB ("part=1"),
        strB ("size=") ++ decRepr n, strB ("name=data")] ++ [10]))
      (strB ("=ybegin")) = true := by
    have hsh : ([] : List Nat).reverse ++
        (wordsJoin [strB ("=ybegin"), strB ("part=1"),
          strB ("size=") ++ decRepr n, strB ("name=data")] ++ [10]) =
        strB ("=ybegin") ++ ([32] ++ (wordsJoin [strB ("part=1"),
          strB ("size=") ++ decRepr n, strB ("name=data")] ++ [10])) := by
      simp [wordsJoin, List.append_assoc]
    rw [hsh]
    exact startsWith_append _ _
  have hfind : findHeaderAux ((junk.map (fun l => l ++ [10])).flatten ++
      (ybeginLine n ++ (ypartLine b m ++ rest))) [] =
      some (ybeginLine n, ypartLine b m ++ rest) := by
    rw [hyb, findHeaderAux_junk junk _ hjunk,
      findHeaderAux_word _ _ [] hno10, if_pos hstart]
    simp [ybeginLine]
  unfold DiscardHeader
  simp only [NewYencDecoder, hfind]
  rw [parseYbegin_frame _ n hn]
  rw [handlePart_ypart _ b m hb rest rfl]

lemma quoteIdxs_cons (c : Nat) (s : List Nat) :
    quoteIdxs (c :: s) = (if c = 34 then [0] else []) ++ (quoteIdxs s).map (· + 1) := by
  unfold quoteIdxs
  rw [List.length_cons, List.range_succ_eq_map, List.filter_cons, List.filter_map]
  have hpred : List.filter ((fun k => (c :: s).getD k 0 == 34) ∘ Nat.succ)
      (List.range s.length) =
      List.filter (fun k => s.getD k 0 == 34) (List.range s.length) := by
    apply List.filter_congr
    intro k _
    simp [List.getD]
  rw [hpred]
  by_cases hc : c = 34
  · rw [if_pos hc]
    have h0 : ((c :: s).getD 0 0 == 34) = true := by
      simp [List.getD, hc]
    rw [if_pos h0]
    simp [Nat.succ_eq_add_one]
  · rw [if_neg hc]
    have h0 : ((c :: s).getD 0 0 == 34) = false := by
      simp [List.getD]
      omega
    rw [h0]
    simp [Nat.succ_eq_add_one]

lemma idxOfQuote_eq_head (s : List Nat) : idxOfQuote s = (quoteIdxs s).head? := by
  induction s with
  | nil => rfl
  | cons c rest ih =>
    rw [quoteIdxs_cons]
    unfold idxOfQuote
    by_cases hc : c = 34
    · simp [hc]
    · rw [if_neg hc, ih]
      simp [hc, List.head?_map]

lemma lastIdxOfQuote_eq_getLast (s : List Nat) :
    lastIdxOfQuote s = (quoteIdxs s).getLast? := by
  induction s with
  | nil => rfl
  | cons c rest ih =>
    rw [quoteIdxs_cons]
    unfold lastIdxOfQuote
    rw [ih]
    cases hq : (quoteIdxs rest).getLast? with
    | some i =>
      have hne : quoteIdxs rest ≠ [] := by
        intro h0
        rw [h0] at hq
        exact Option.noConfusion hq
      have hmapne : (quoteIdxs rest).map (· + 1) ≠ [] := by
        simpa using hne
      rw [List.getLast?_append_of_ne_nil _ hmapne, List.getLast?_map, hq]
      rfl
    | none =>
      have h0 : quoteIdxs rest = [] := List.getLast?_eq_none_iff.mp hq
      rw [h0]
      simp only [List.map_nil, List.append_nil]
      by_cases hc : c = 34
      · simp [hc]
      · simp [hc]

/-!
## Claim C3 — what `Manager.Fetch` returns after the loop
-/

/-- C3, counterexample: with provider "a" at capacity (skipped busy) and
provider "b" failing with a transport error, the loop ends with one busy
skip, a missing set smaller than the provider list, and a saved non-430
error — and `Fetch` returns that error, not `ProviderBusy` as the claim
requires whenever some provider was skipped busy. -/
theorem c3_counterexample :
    (ManagerFetch [⟨"a", 1, 1, .success⟩,
        ⟨"b", 1, 0, .failure (.transport ("dial tcp refused"))⟩] []).busySkips = 1 ∧
    (ManagerFetch [⟨"a", 1, 1, .success⟩,
        ⟨"b", 1, 0, .failure (.transport ("dial tcp refused"))⟩] []).missing.length ≠ 2 ∧
    (ManagerFetch [⟨"a", 1, 1, .success⟩,
        ⟨"b", 1, 0, .failure (.transport ("dial tcp refused"))⟩] []).res =
      .err (.transport ("dial tcp refused")) ∧
    GoErr.transport ("dial tcp refused") ≠ GoErr.providerBusySentinel := by
  decide

/-- C3, amended: after the priority-ordered loop, when no reader was
produced and not every provider is marked missing, a saved non-430 error
takes precedence: `Fetch` returns it even if providers were skipped for
being busy, and returns `ProviderBusy` exactly when no error was saved. -/
theorem c3_post_loop (provs : List MProvider) (missing : List String)
    (hnr : (ManagerFetch provs missing).res.isReader = false)
    (hnm : (ManagerFetch provs missing).missing.length ≠ provs.length) :
    ((ManagerFetch provs missing).savedErr = none →
      (ManagerFetch provs missing).res = .err .providerBusySentinel) ∧
    (∀ e, (ManagerFetch provs missing).savedErr = some e →
      (ManagerFetch provs missing).res = .err e) := by
  unfold ManagerFetch at hnr hnm ⊢
  have hspec := (fetchLoop_spec provs missing none 0 0 [] provs.length).2.2 hnr
  rw [if_neg hnm] at hspec
  constructor
  · intro hse
    rw [hse] at hspec
    exact hspec
  · intro e hse
    rw [hse] at hspec
    exact hspec

/-- C3, witness: one busy provider, nothing saved — `ProviderBusy`. -/
theorem c3_post_loop_witness :
    (ManagerFetch [⟨"a", 1, 1, FetchOutcome.success⟩] []).res =
      FetchRes.err .providerBusySentinel :=
  (c3_post_loop [⟨"a", 1, 1, FetchOutcome.success⟩] [] (by decide) (by decide)).1
    (by decide)

/-!
## Claim C4 — all providers already marked missing
-/

/-- C4, counterexample: a segment whose missing set contains the only
configured provider "a" *and* a stale extra key "b" makes the size check
`len(MissingFrom) == len(providers)` fail, so `Fetch` returns
`ProviderBusy` instead of the `ArticleNotFound` the claim promises for
every missing set containing all provider IDs (no fetch is attempted
either way). -/
theorem c4_counterexample :
    (ManagerFetch [⟨"a", 1, 0, .success⟩] ["a", "b"]).res =
      .err .providerBusySentinel ∧
    (ManagerFetch [⟨"a", 1, 0, .success⟩] ["a", "b"]).attempts = 0 ∧
    "a" ∈ (["a", "b"] : List String) ∧
    (ManagerFetch [⟨"a", 1, 0, .success⟩] ["a", "b"]).res ≠
      .err .articleNotFoundSentinel := by
  decide

/-- C4, amended: when the segment's missing set contains the ID of every
configured provider, `Fetch` attempts no fetch and acquires no semaphore
slot (every provider is skipped, all slot counts unchanged, the missing
set unchanged); it returns `ArticleNotFound` when the missing set
moreover has exactly the size of the provider list — i.e. contains the
provider IDs and nothing else. -/
theorem c4_all_missing (provs : List MProvider) (missing : List String)
    (h : ∀ p ∈ provs, p.pid ∈ missing) :
    (ManagerFetch provs missing).attempts = 0 ∧
    (ManagerFetch provs missing).provs = provs ∧
    (ManagerFetch provs missing).missing = missing ∧
    (missing.length = provs.length →
      (ManagerFetch provs missing).res = FetchRes.err .articleNotFoundSentinel) := by
  unfold ManagerFetch
  rw [fetchLoop_all_missing provs missing none 0 0 [] provs.length
    (fun p hp => by simpa using h p hp)]
  refine ⟨rfl, by simp [fetchLoop], rfl, ?_⟩
  intro hlen
  simp [fetchLoop, hlen]

/-- C4, witness: the missing set is exactly the provider-ID set. -/
theorem c4_all_missing_witness :
    (ManagerFetch [⟨"a", 1, 0, FetchOutcome.success⟩] ["a"]).res =
      FetchRes.err .articleNotFoundSentinel ∧
    (ManagerFetch [⟨"a", 1, 0, FetchOutcome.success⟩] ["a"]).attempts = 0 :=
  ⟨(c4_all_missing [⟨"a", 1, 0, FetchOutcome.success⟩] ["a"] (by decide)).2.2.2
      (by decide),
    (c4_all_missing [⟨"a", 1, 0, FetchOutcome.success⟩] ["a"] (by decide)).1⟩

/-!
## Claim C9 — semaphore discipline of `Manager.Fetch`
-/

/-- C9, confirmed: starting from any per-provider occupancies within
bounds, a failed `Fetch` leaves every slot count unchanged; a successful
`Fetch` returns a reader holding exactly one slot of the chosen provider
(all counts stay within `maxConn`), the first `Close` of that reader
restores all counts to their pre-fetch values, and any further `Close` is
a no-op on the semaphores. -/
theorem c9_semaphore (provs : List MProvider) (missing : List String)
    (hbound : ∀ p ∈ provs, p.inFlight ≤ p.maxConn) :
    (∀ e, (ManagerFetch provs missing).res = .err e →
      (ManagerFetch provs missing).provs = provs) ∧
    (∀ r, (ManagerFetch provs missing).res = .reader r →
      closeReader r (ManagerFetch provs missing).provs = (⟨r.idx, false⟩, provs) ∧
      closeReader ⟨r.idx, false⟩ provs = (⟨r.idx, false⟩, provs) ∧
      (∀ p ∈ (ManagerFetch provs missing).provs, p.inFlight ≤ p.maxConn)) := by
  unfold ManagerFetch
  obtain ⟨h1, h2, _h3⟩ := fetchLoop_spec provs missing none 0 0 [] provs.length
  constructor
  · intro e he
    simpa using h1 e he
  · intro r hr
    obtain ⟨hp, q, ps1, ps2, hsplit, hlt, _hout, hidx, hprovs⟩ := h2 r hr
    obtain ⟨ridx, rpend⟩ := r
    simp only at hp
    subst hp
    simp only [List.length_nil, Nat.zero_add] at hidx
    subst hidx
    obtain ⟨qpid, qmax, qin, qout⟩ := q
    simp only [List.nil_append] at hprovs
    refine ⟨?_, ?_, ?_⟩
    · rw [hprovs, hsplit]
      exact closeReader_restore ps1 ps2 qpid qmax qin qout
    · simp [closeReader]
    · intro p hpmem
      rw [hprovs] at hpmem
      simp only [List.mem_append, List.mem_cons] at hpmem
      rcases hpmem with hin | hin | hin
      · exact hbound p (by rw [hsplit]; exact List.mem_append_left _ hin)
      · rw [hin]
        simp only
        have := hlt
        simp only at this
        omega
      · exact hbound p (by
          rw [hsplit]
          exact List.mem_append_right _ (List.mem_cons_of_mem _ hin))

/-- C9, witness: a single provider with two slots; the fetch takes one
slot and the close gives it back. -/
theorem c9_semaphore_witness :
    closeReader ⟨0, true⟩ (ManagerFetch [⟨"a", 2, 0, FetchOutcome.success⟩] []).provs =
      (⟨0, false⟩, [⟨"a", 2, 0, FetchOutcome.success⟩]) ∧
    closeReader ⟨0, false⟩ [(⟨"a", 2, 0, FetchOutcome.success⟩ : MProvider)] =
      (⟨0, false⟩, [⟨"a", 2, 0, FetchOutcome.success⟩]) :=
  ⟨((c9_semaphore [⟨"a", 2, 0, FetchOutcome.success⟩] [] (by decide)).2
      ⟨0, true⟩ (by decide)).1,
    ((c9_semaphore [⟨"a", 2, 0, FetchOutcome.success⟩] [] (by decide)).2
      ⟨0, true⟩ (by decide)).2.1⟩

/-!
## Claim C2 — collector retry policy
-/

/-- C2, counterexample: a checksum-mismatch result (the error
`fmt.Errorf("integrity check failed: %w", ...)` produced by
`processSegment`) with `retryCount = 0 < 3` is recorded as a permanent
failure immediately — it is *not* re-enqueued with an incremented retry
count as the claim states for every non-`ProviderBusy` error. -/
theorem c2_counterexample :
    collectDecision
        (some (GoErr.wrapped ("integrity check failed") GoErr.checksumMismatch)) 0 =
      CollectorDecision.permanentFailure ∧
    CollectorDecision.permanentFailure ≠ CollectorDecision.requeue 1 2000 := by
  decide

/-- C2, amended: the collector re-enqueues only `ProviderBusy` and
`ArticleNotFound` results.  An `ArticleNotFound` (non-busy) result with
`retryCount < 3` increments the counter and re-enqueues after
`2^newRetryCount` seconds; a `ProviderBusy` result with `retryCount < 3`
re-enqueues after 100 ms without incrementing; every other error — checksum
mismatch, header error, transport error — is recorded as a permanent
failure at once, as is any error once `retryCount` has reached 3. -/
theorem c2_retry_policy (e : GoErr) (rc : Nat) :
    (errorsIs e GoErr.providerBusySentinel = false →
      errorsIs e GoErr.articleNotFoundSentinel = true → rc < 3 →
      collectDecision (some e) rc =
        CollectorDecision.requeue (rc + 1) (2 ^ (rc + 1) * 1000)) ∧
    (errorsIs e GoErr.providerBusySentinel = true → rc < 3 →
      collectDecision (some e) rc = CollectorDecision.requeue rc 100) ∧
    (errorsIs e GoErr.providerBusySentinel = false →
      errorsIs e GoErr.articleNotFoundSentinel = false →
      collectDecision (some e) rc = CollectorDecision.permanentFailure) ∧
    (3 ≤ rc → collectDecision (some e) rc = CollectorDecision.permanentFailure) := by
  refine ⟨?_, ?_, ?_, ?_⟩
  · intro hb hm hrc
    simp [collectDecision, hb, hm, hrc]
  · intro hb hrc
    simp [collectDecision, hb, hrc]
  · intro hb hm
    simp [collectDecision, hb, hm]
  · intro hrc
    have : ¬rc < 3 := by omega
    simp [collectDecision, this]

/-- C2, witness for the amended theorem at a concrete missing-article
result with `retryCount = 0`. -/
theorem c2_retry_policy_witness :
    errorsIs (GoErr.wrapped ("fetch failed") GoErr.articleNotFoundSentinel)
        GoErr.providerBusySentinel = false ∧
    errorsIs (GoErr.wrapped ("fetch failed") GoErr.articleNotFoundSentinel)
        GoErr.articleNotFoundSentinel = true ∧
    (0 : Nat) < 3 ∧
    collectDecision
        (some (GoErr.wrapped ("fetch failed") GoErr.articleNotFoundSentinel)) 0 =
      CollectorDecision.requeue 1 2000 :=
  ⟨by decide, by decide, by decide,
    (c2_retry_policy (GoErr.wrapped ("fetch failed") GoErr.articleNotFoundSentinel) 0).1
      (by decide) (by decide) (by decide)⟩

/-!
## Claim C5 — startup reset of the persistent queue
-/

/-- C5, counterexample: a stored row in status `Processing` is left
completely untouched by the startup reset — the call
`ResetStuckQueueItems(ctx, StatusPending, StatusDownloading)` passes
`Pending` as the *new* status and only `Downloading` as an old status, so
`Processing` rows are neither reset to `Pending` nor given the
"Unexpected shutdown" note. -/
theorem c5_counterexample :
    initFromDatabaseReset [⟨"q1", JobStatus.processing, none⟩] =
      [⟨"q1", JobStatus.processing, none⟩] ∧
    JobStatus.processing ≠ JobStatus.pending := by
  decide

/-- C5, amended: on startup with persistence enabled, exactly the stored
rows whose status is `Downloading` are reset to `Pending` with the error
note "Unexpected shutdown"; rows already `Pending` keep their status and
do not receive the note (they are still picked up for retry), and rows in
`Processing` (like the terminal rows) are not modified at all. -/
theorem c5_reset_on_startup (rows : List QueueRow) :
    initFromDatabaseReset rows =
      rows.map fun r =>
        if r.status = JobStatus.downloading then
          { r with status := JobStatus.pending,
                   errorNote := some ("Unexpected shutdown") }
        else r := by
  have hpt : ∀ r : QueueRow,
      (if [JobStatus.downloading].contains r.status = true then
        ({ r with status := JobStatus.pending,
                  errorNote := some ("Unexpected shutdown") } : QueueRow)
      else r) =
      (if r.status = JobStatus.downloading then
        { r with status := JobStatus.pending,
                 errorNote := some ("Unexpected shutdown") }
      else r) := by
    intro r
    by_cases h : r.status = JobStatus.downloading
    · rw [h, show ([JobStatus.downloading].contains JobStatus.downloading) = true from rfl]
      simp
    · have hc : ([JobStatus.downloading].contains r.status) = false := by
        cases hs : r.status
        · rfl
        · exact absurd hs h
        · rfl
        · rfl
        · rfl
      rw [hc]
      simp [h]
  unfold initFromDatabaseReset ResetStuckQueueItems
  rw [show ([JobStatus.downloading].isEmpty) = false from rfl]
  simp only [Bool.false_eq_true, if_false]
  induction rows with
  | nil => rfl
  | cons r rest ih =>
    simp only [List.map_cons]
    rw [hpt r, ih]

/-!
## Claim C8 — write-offset computation
-/

/-- C8, counterexample: an article whose body carries `=ypart begin=1`
decodes to `PartOffset = 0`, and `processSegment` then writes at the
dispatcher's cumulative offset (here 500) instead of `begin - 1 = 0` —
the yEnc offset is not preferred when it equals zero. -/
theorem c8_counterexample :
    ((DiscardHeader (NewYencDecoder (ybeginLine 1000 ++ ypartLine 1 1000))).toOption.map
        fun d => computeWriteOffset d.partOffset 500) = some 500 ∧
    (500 : Int) ≠ (1 : Int) - 1 := by
  decide

/-- C8, amended: the worker prefers the yEnc `=ypart` offset only when it
is nonzero: a nonzero `PartOffset` (that is, `begin > 1`) is used as the
write offset; when `PartOffset` is zero — either no `=ypart` header or
`begin = 1` — the dispatcher-computed cumulative offset is used if it is
nonzero, and offset 0 is used otherwise. -/
theorem c8_write_offset (p j : Int) :
    (p ≠ 0 → computeWriteOffset p j = p) ∧
    (p = 0 → j ≠ 0 → computeWriteOffset p j = j) ∧
    (p = 0 → j = 0 → computeWriteOffset p j = 0) := by
  refine ⟨?_, ?_, ?_⟩
  · intro hp
    simp [computeWriteOffset, hp]
  · intro hp hj
    simp [computeWriteOffset, hp, hj]
  · intro hp hj
    simp [computeWriteOffset, hp, hj]

/-- C8, witness for the amended theorem: a nonzero yEnc part offset wins
over the dispatcher offset. -/
theorem c8_write_offset_witness :
    (7 : Int) ≠ 0 ∧ computeWriteOffset 7 3 = 7 :=
  ⟨by decide, (c8_write_offset 7 3).1 (by decide)⟩

/-!
## Claim C10 — filename sanitization
-/

/-- C10, confirmed: for every unescape function and subject,
`sanitizeFileName` computes exactly the pipeline the claim describes —
HTML-entity-unescape; if a first and a last double quote exist with the
first strictly before the last, the substring strictly between them,
otherwise the trailing case-insensitive `yenc` strip followed by the
leading `[n/m]` counter strip; then each of `\ / : * ? " < > |` replaced
by `_`; then surrounding whitespace trimmed. -/
theorem c10_sanitize (unescape : List Nat → List Nat) (subject : List Nat) :
    sanitizeFileName unescape subject = sanitizeFileNameSpec unescape subject := by
  unfold sanitizeFileName sanitizeFileNameSpec
  congr 1
  congr 1
  unfold sanitizeCore sanitizeCoreSpec
  rw [idxOfQuote_eq_head, lastIdxOfQuote_eq_getLast]
  cases h1 : (quoteIdxs (unescape subject)).head? with
  | none => rfl
  | some i =>
    cases h2 : (quoteIdxs (unescape subject)).getLast? with
    | none => rfl
    | some j =>
      by_cases hij : i < j
      · simp only [if_pos hij]
        exact List.drop_take j (i + 1) (unescape subject)
      · simp only [if_neg hij]

/-!
## Claim C1 — yEnc encode/decode round trip
-/

/-- C1, confirmed: for every byte sequence (escaping bytes included),
encoding it, framing it with `=ybegin`/`=ypart`/`=yend` carrying the
CRC32 of the plain bytes as `pcrc32`, and feeding the frame to the
decoder makes the `Read` loop return exactly the original bytes — for
every buffer capacity, so decode state carries over between `Read`
calls — ending with `io.EOF` at the end marker, and a subsequent
`Verify` succeeds. -/
theorem c1_roundtrip (bs : List Nat) (hmem : ∀ x ∈ bs, x < 256)
    (hlen : bs.length ≤ 2 ^ 63 - 1) (cap fuel : Nat) (hcap : 1 ≤ cap)
    (hfuel : bs.length < fuel) :
    ∃ d1, DiscardHeader (NewYencDecoder (yencFrame bs)) = Except.ok d1 ∧
      (readToEnd cap fuel d1).1 = bs ∧
      (readToEnd cap fuel d1).2.2 = some GoErr.eof ∧
      Verify (readToEnd cap fuel d1).2.1 = none := by
  have hframe : yencFrame bs =
      (([] : List (List Nat)).map (fun l => l ++ [10])).flatten ++
        (ybeginLine bs.length ++ (ypartLine 1 bs.length ++
          (encodeBytes bs ++ ([13, 10, 61] ++
            yendTail (crc32List bs) bs.length)))) := by
    simp [yencFrame, List.append_assoc]
  have hdisc := DiscardHeader_found [] bs.length 1 bs.length
    (encodeBytes bs ++ ([13, 10, 61] ++ yendTail (crc32List bs) bs.length))
    (by simp) hlen (by decide)
  refine ⟨⟨encodeBytes bs ++ ([13, 10, 61] ++ yendTail (crc32List bs) bs.length),
    false, false, [], 0, Int.ofNat 1 - 1, Int.ofNat bs.length⟩,
    ?_, ?_, ?_, ?_⟩
  · rw [hframe]
    exact hdisc
  all_goals
    rw [readToEnd_encode (crc32List bs) bs.length cap hcap (crc32List_lt bs hmem)
      fuel bs [] 0 (Int.ofNat 1 - 1) (Int.ofNat bs.length) hmem hfuel]
  simp [Verify]

/-- C1, witness: a five-byte sequence that needs all four escapes, framed
and decoded with a two-byte buffer. -/
theorem c1_roundtrip_witness :
    (∀ x ∈ ([0, 13, 10, 61, 200] : List Nat), x < 256) ∧
    ([0, 13, 10, 61, 200] : List Nat).length ≤ 2 ^ 63 - 1 ∧
    1 ≤ 2 ∧ ([0, 13, 10, 61, 200] : List Nat).length < 6 ∧
    ∃ d1, DiscardHeader (NewYencDecoder (yencFrame [0, 13, 10, 61, 200])) =
        Except.ok d1 ∧
      (readToEnd 2 6 d1).1 = [0, 13, 10, 61, 200] ∧
      (readToEnd 2 6 d1).2.2 = some GoErr.eof ∧
      Verify (readToEnd 2 6 d1).2.1 = none :=
  ⟨by decide, by decide, by decide, by decide,
    c1_roundtrip [0, 13, 10, 61, 200] (by decide) (by decide) 2 6
      (by decide) (by decide)⟩

/-!
## Claim C6 — missing checksum fields
-/

/-- C6, counterexample: the four-byte content `[157, 10, 217, 109]` has
CRC32 zero, so with no footer at all (`expectedCRC` still `0`) the
decoder reads nonempty content and `Verify` nevertheless succeeds. -/
theorem c6_counterexample :
    (Read 8 (NewYencDecoder (encodeBytes [157, 10, 217, 109]))).1 =
      [157, 10, 217, 109] ∧
    (Read 8 (NewYencDecoder (encodeBytes [157, 10, 217, 109]))).2.1.expectedCRC
      = 0 ∧
    ([157, 10, 217, 109] : List Nat) ≠ [] ∧
    Verify (Read 8 (NewYencDecoder (encodeBytes [157, 10, 217, 109]))).2.1 =
      none := by
  decide

/-- C6, amended: a footer whose fields carry neither a `pcrc32=` nor a
`crc32=` prefix leaves the decoder unchanged (so `expectedCRC` stays at
its initial `0`), and with `expectedCRC = 0` `Verify` reports a checksum
mismatch exactly when the decoded content's CRC32 is nonzero — content
with CRC32 zero (including some nonempty content) passes. -/
theorem c6_no_crc :
    (∀ (d : YencDecoder) (parts : List (List Nat)),
      (∀ p ∈ parts, startsWith p (strB ("pcrc32=")) = false ∧
        startsWith p (strB ("crc32=")) = false) →
      parseFooterFields d parts = d) ∧
    (∀ d : YencDecoder, d.expectedCRC = 0 →
      (Verify d = some GoErr.checksumMismatch ↔ crc32List d.hashAcc ≠ 0)) := by
  constructor
  · intro d parts
    induction parts generalizing d with
    | nil => intro _; rfl
    | cons p ps ih =>
      intro h
      obtain ⟨h1, h2⟩ := h p (List.mem_cons_self _ _)
      rw [parseFooterFields_skip d p ps h1 h2]
      exact ih d (fun q hq => h q (List.mem_cons_of_mem _ hq))
  · intro d h0
    unfold Verify
    rw [h0]
    by_cases hcrc : crc32List d.hashAcc = 0
    · simp [hcrc]
    · simp [hcrc]

/-- C6, witness: a `size=`-only footer line leaves the fresh decoder
unchanged, and with `expectedCRC = 0` a one-byte content fails
verification exactly because its CRC32 is nonzero. -/
theorem c6_no_crc_witness :
    parseFooterFields (NewYencDecoder []) [strB ("size=4")] =
      NewYencDecoder [] ∧
    (Verify { NewYencDecoder [] with hashAcc := [1] } =
        some GoErr.checksumMismatch ↔ crc32List [1] ≠ 0) :=
  ⟨c6_no_crc.1 (NewYencDecoder []) [strB ("size=4")] (by decide),
    c6_no_crc.2 { NewYencDecoder [] with hashAcc := [1] } rfl⟩

/-!
## Claim C7 — header discovery
-/

/-- C7, counterexample: at EOF with no `=ybegin` line, `DiscardHeader`
returns the wrap of `io.EOF`, not the `ErrHeaderNotFound` sentinel —
`errors.Is` against the sentinel is false. -/
theorem c7_counterexample :
    DiscardHeader (NewYencDecoder []) =
      Except.error (.wrapped ("searching for yenc header") GoErr.eof) ∧
    errorsIs (GoErr.wrapped ("searching for yenc header") GoErr.eof)
      GoErr.headerNotFoundSentinel = false ∧
    errorsIs (GoErr.wrapped ("searching for yenc header") GoErr.eof)
      GoErr.eof = true :=
  ⟨rfl, by decide, by decide⟩

/-- C7, amended: when every complete line of the stream fails the
`=ybegin` prefix test, `DiscardHeader` fails with a wrap of `io.EOF`
(matching `errors.Is(err, io.EOF)`, not the unused `ErrHeaderNotFound`
sentinel); when junk lines are followed by an `=ybegin` line and an
`=ypart` line, it parses `size=` into `fileSize`, consumes the `=ypart`
line and sets `partOffset` to `begin - 1`. -/
theorem c7_discard_header :
    (∀ input : List Nat,
      (∀ l ∈ completeLines input, startsWith l (strB ("=ybegin")) = false) →
      DiscardHeader (NewYencDecoder input) =
        Except.error (.wrapped ("searching for yenc header") GoErr.eof)) ∧
    (∀ (junk : List (List Nat)) (n b m : Nat) (rest : List Nat),
      (∀ l ∈ junk, (∀ ch ∈ l, ch ≠ 10) ∧
        startsWith (l ++ [10]) (strB ("=ybegin")) = false) →
      n ≤ 2 ^ 63 - 1 → b ≤ 2 ^ 63 - 1 →
      DiscardHeader (NewYencDecoder
        ((junk.map (fun l => l ++ [10])).flatten ++
          (ybeginLine n ++ (ypartLine b m ++ rest)))) =
        Except.ok { input := rest, escaped := false, reachedEnd := false,
                    hashAcc := [], expectedCRC := 0,
                    partOffset := Int.ofNat b - 1, fileSize := Int.ofNat n }) := by
  constructor
  · intro input h
    unfold DiscardHeader
    simp only [NewYencDecoder, findHeaderAux_none input [] h]
  · intro junk n b m rest hjunk hn hb
    exact DiscardHeader_found junk n b m rest hjunk hn hb

/-- C7, witness: a junk line then a framed header; and a headerless
stream that ends in the wrapped `io.EOF`. -/
theorem c7_discard_header_witness :
    ((∀ l ∈ completeLines (strB ("hello") ++ [10]),
        startsWith l (strB ("=ybegin")) = false) ∧
      DiscardHeader (NewYencDecoder (strB ("hello") ++ [10])) =
        Except.error (.wrapped ("searching for yenc header") GoErr.eof)) ∧
    DiscardHeader (NewYencDecoder
      (([strB ("junk")].map (fun l => l ++ [10])).flatten ++
        (ybeginLine 3 ++ (ypartLine 2 3 ++ [61])))) =
      Except.ok { input := [61], escaped := false, reachedEnd := false,
                  hashAcc := [], expectedCRC := 0,
                  partOffset := Int.ofNat 2 - 1, fileSize := Int.ofNat 3 } :=
  ⟨⟨by decide, c7_discard_header.1 (strB ("hello") ++ [10]) (by decide)⟩,
    c7_discard_header.2 [strB ("junk")] 3 2 3 [61] (by decide) (by decide)
      (by decide)⟩

end GoNZB
